import Mathlib

/-!
Verification development for the staged analysis orchestrator of the
Student-performance-Analyser repository (src/gemini_analyzer.py).

Python strings are modelled as lists of characters (`PyStr`); Python's
`str.strip`, `str.split(sep)` and `str.startswith` are modelled below.
JSON values produced by `json.loads` are modelled by the inductive
type `JVal`; Python dictionaries are association lists kept in
insertion order.  Fallible Python code (code that can raise) is
modelled with `Except (List Char)`, the error component carrying the
exception message.
-/

/-- A Python string: a sequence of characters. -/
abbrev PyStr := List Char

/-- The whitespace characters stripped by Python's `str.strip()`
(ASCII fragment). -/
def pyWs (c : Char) : Bool :=
  c = ' ' || c = '\t' || c = '\n' || c = '\r' || c = '\x0b' || c = '\x0c'

/-- Python `str.lstrip()`. -/
def lstrip (s : PyStr) : PyStr := s.dropWhile pyWs

/-- Python `str.rstrip()`. -/
def rstrip (s : PyStr) : PyStr := (s.reverse.dropWhile pyWs).reverse

/-- Python `str.strip()`. -/
def pyStrip (s : PyStr) : PyStr := rstrip (lstrip s)

/-- The backtick character (written via its code point). -/
def btick : Char := Char.ofNat 96

/-- The markdown fence marker three-backticks. -/
def fenceM : PyStr := [btick, btick, btick]

/-- The tagged markdown fence opener three-backticks-json. -/
def fenceTag : PyStr := [btick, btick, btick, 'j', 's', 'o', 'n']

/-- Locate the first occurrence of (non-empty) `sep` in `s`: returns the
part before the occurrence and the part after it, or `none` when `sep`
does not occur.  This is the engine of Python's `str.split(sep)`. -/
def splitFirst (sep : PyStr) : PyStr → Option (PyStr × PyStr)
  | [] => none
  | c :: rest =>
    if sep.isPrefixOf (c :: rest) then
      some ([], (c :: rest).drop sep.length)
    else
      match splitFirst sep rest with
      | none => none
      | some (pre, post) => some (c :: pre, post)

/-- Fuel-driven worker for `pySplit`. -/
def pySplitAux (sep : PyStr) : Nat → PyStr → List PyStr
  | 0, s => [s]
  | n + 1, s =>
    match splitFirst sep s with
    | none => [s]
    | some (pre, post) => pre :: pySplitAux sep n post

/-- Python `str.split(sep)` for a non-empty separator. -/
def pySplit (sep s : PyStr) : List PyStr := pySplitAux sep (s.length + 1) s

/-- The fence-stripping step applied to every raw model response
(src/gemini_analyzer.py lines 62-67, 150-154, 256-260): strip
whitespace; if the text starts with a tagged fence, keep what stands
between the first tagged fence and the next fence; otherwise if it
starts with a bare fence, keep what stands between the first two
fences; otherwise keep the stripped text. -/
def extractResponseText (t : PyStr) : PyStr :=
  let s := pyStrip t
  if fenceTag.isPrefixOf s then
    pyStrip ((pySplit fenceM ((pySplit fenceTag s).getD 1 [])).getD 0 [])
  else if fenceM.isPrefixOf s then
    pyStrip ((pySplit fenceM ((pySplit fenceM s).getD 1 [])).getD 0 [])
  else s

/-- JSON values as decoded by Python's `json.loads`, restricted to the
shapes the analyzer exchanges with the model: `null`, booleans,
(arbitrary-precision) integers, strings, arrays and objects.  Object
fields are kept in insertion order, keys are arbitrary values because
`dict.setdefault` in the orchestrator may insert non-string keys. -/
inductive JVal where
  | jnull : JVal
  | jbool : Bool → JVal
  | jint : Int → JVal
  | jstr : PyStr → JVal
  | jarr : List JVal → JVal
  | jobj : List (JVal × JVal) → JVal

mutual

/-- Decidable equality of JSON values (Python `==` on decoded data). -/
def JVal.decEq : (a b : JVal) → Decidable (a = b)
  | .jnull, .jnull => isTrue rfl
  | .jbool a, .jbool b =>
    if h : a = b then isTrue (h ▸ rfl)
    else isFalse (fun he => by cases he; exact h rfl)
  | .jint a, .jint b =>
    if h : a = b then isTrue (h ▸ rfl)
    else isFalse (fun he => by cases he; exact h rfl)
  | .jstr a, .jstr b =>
    if h : a = b then isTrue (h ▸ rfl)
    else isFalse (fun he => by cases he; exact h rfl)
  | .jarr a, .jarr b =>
    match JVal.decEqList a b with
    | isTrue h => isTrue (h ▸ rfl)
    | isFalse h => isFalse (fun he => by cases he; exact h rfl)
  | .jobj a, .jobj b =>
    match JVal.decEqFields a b with
    | isTrue h => isTrue (h ▸ rfl)
    | isFalse h => isFalse (fun he => by cases he; exact h rfl)
  | .jnull, .jbool _ => isFalse (fun h => by cases h)
  | .jnull, .jint _ => isFalse (fun h => by cases h)
  | .jnull, .jstr _ => isFalse (fun h => by cases h)
  | .jnull, .jarr _ => isFalse (fun h => by cases h)
  | .jnull, .jobj _ => isFalse (fun h => by cases h)
  | .jbool _, .jnull => isFalse (fun h => by cases h)
  | .jbool _, .jint _ => isFalse (fun h => by cases h)
  | .jbool _, .jstr _ => isFalse (fun h => by cases h)
  | .jbool _, .jarr _ => isFalse (fun h => by cases h)
  | .jbool _, .jobj _ => isFalse (fun h => by cases h)
  | .jint _, .jnull => isFalse (fun h => by cases h)
  | .jint _, .jbool _ => isFalse (fun h => by cases h)
  | .jint _, .jstr _ => isFalse (fun h => by cases h)
  | .jint _, .jarr _ => isFalse (fun h => by cases h)
  | .jint _, .jobj _ => isFalse (fun h => by cases h)
  | .jstr _, .jnull => isFalse (fun h => by cases h)
  | .jstr _, .jbool _ => isFalse (fun h => by cases h)
  | .jstr _, .jint _ => isFalse (fun h => by cases h)
  | .jstr _, .jarr _ => isFalse (fun h => by cases h)
  | .jstr _, .jobj _ => isFalse (fun h => by cases h)
  | .jarr _, .jnull => isFalse (fun h => by cases h)
  | .jarr _, .jbool _ => isFalse (fun h => by cases h)
  | .jarr _, .jint _ => isFalse (fun h => by cases h)
  | .jarr _, .jstr _ => isFalse (fun h => by cases h)
  | .jarr _, .jobj _ => isFalse (fun h => by cases h)
  | .jobj _, .jnull => isFalse (fun h => by cases h)
  | .jobj _, .jbool _ => isFalse (fun h => by cases h)
  | .jobj _, .jint _ => isFalse (fun h => by cases h)
  | .jobj _, .jstr _ => isFalse (fun h => by cases h)
  | .jobj _, .jarr _ => isFalse (fun h => by cases h)

/-- Decidable equality of JSON arrays. -/
def JVal.decEqList : (a b : List JVal) → Decidable (a = b)
  | [], [] => isTrue rfl
  | [], _ :: _ => isFalse (fun h => by cases h)
  | _ :: _, [] => isFalse (fun h => by cases h)
  | x :: xs, y :: ys =>
    match JVal.decEq x y with
    | isFalse h => isFalse (fun he => by cases he; exact h rfl)
    | isTrue h1 =>
      match JVal.decEqList xs ys with
      | isTrue h2 => isTrue (h1 ▸ h2 ▸ rfl)
      | isFalse h => isFalse (fun he => by cases he; exact h rfl)

/-- Decidable equality of JSON object field lists. -/
def JVal.decEqFields : (a b : List (JVal × JVal)) → Decidable (a = b)
  | [], [] => isTrue rfl
  | [], _ :: _ => isFalse (fun h => by cases h)
  | _ :: _, [] => isFalse (fun h => by cases h)
  | (k1, v1) :: xs, (k2, v2) :: ys =>
    match JVal.decEq k1 k2 with
    | isFalse h => isFalse (fun he => by cases he; exact h rfl)
    | isTrue hk =>
      match JVal.decEq v1 v2 with
      | isFalse h => isFalse (fun he => by cases he; exact h rfl)
      | isTrue hv =>
        match JVal.decEqFields xs ys with
        | isTrue ht => isTrue (hk ▸ hv ▸ ht ▸ rfl)
        | isFalse h => isFalse (fun he => by cases he; exact h rfl)

end

instance : DecidableEq JVal := JVal.decEq

/-- Association-list lookup (first binding wins; the JSON decoder and
`setdefault` keep keys unique). -/
def assocFind (f : List (JVal × JVal)) (k : JVal) : Option JVal :=
  (f.find? (fun kv => kv.1 == k)).map (fun kv => kv.2)

/-- Whether a value can be a Python `dict` key (lists and dicts are
unhashable). -/
def hashable : JVal → Bool
  | .jarr _ => false
  | .jobj _ => false
  | _ => true

/-- Python truthiness of a decoded value. -/
def pyTruthy : JVal → Bool
  | .jnull => false
  | .jbool b => b
  | .jint n => n != 0
  | .jstr s => !s.isEmpty
  | .jarr l => !l.isEmpty
  | .jobj f => !f.isEmpty

/-- `sep` occurs in `s` as a contiguous substring. -/
def Occurs (sep s : PyStr) : Prop := ∃ a b, s = a ++ sep ++ b

/-- Boolean substring test (Python `in` on strings). -/
def occursB (sep s : PyStr) : Bool := sep.isEmpty || (splitFirst sep s).isSome

/-- Python iteration `for x in v`: lists yield their items, strings
their characters (as one-character strings), dicts their keys; other
values raise `TypeError`. -/
def pyIter : JVal → Except (List Char) (List JVal)
  | .jarr l => .ok l
  | .jstr s => .ok (s.map (fun c => .jstr [c]))
  | .jobj f => .ok (f.map (fun kv => kv.1))
  | _ => .error ("TypeError: object is not iterable").data

/-- Python `len(v)`: sized containers only. -/
def pyLen : JVal → Except (List Char) Nat
  | .jarr l => .ok l.length
  | .jstr s => .ok s.length
  | .jobj f => .ok f.length
  | _ => .error ("TypeError: object has no length").data

/-- Python `dict.get(k, d)` on a decoded object. -/
def pyDictGet (f : List (JVal × JVal)) (k d : JVal) : Except (List Char) JVal :=
  if hashable k then .ok ((assocFind f k).getD d)
  else .error ("TypeError: unhashable type").data

/-- Python `dict.setdefault(k, d)`: inserts the key at the end when
absent, leaves the dict unchanged when present. -/
def pySetdefault (f : List (JVal × JVal)) (k d : JVal) :
    Except (List Char) (List (JVal × JVal)) :=
  if hashable k then
    .ok (if (assocFind f k).isSome then f else f ++ [(k, d)])
  else .error ("TypeError: unhashable type").data

/-- Python membership `x in v` for containers. -/
def pyContains (v x : JVal) : Except (List Char) Bool :=
  match v with
  | .jobj f =>
    if hashable x then .ok (f.any (fun kv => kv.1 == x))
    else .error ("TypeError: unhashable type").data
  | .jarr l => .ok (l.any (fun y => y == x))
  | .jstr s =>
    match x with
    | .jstr t => .ok (occursB t s)
    | _ => .error ("TypeError: in <string> requires string as left operand").data
  | _ => .error ("TypeError: argument is not a container").data

/-- Convert a value used as a sequence index to an integer (Python
booleans count as integers). -/
def asIndex : JVal → Option Int
  | .jint n => some n
  | .jbool b => some (if b then 1 else 0)
  | _ => none

/-- Python subscription `v[k]`. -/
def pyIndex (v k : JVal) : Except (List Char) JVal :=
  match v with
  | .jobj f =>
    if hashable k then
      match assocFind f k with
      | some w => .ok w
      | none => .error ("KeyError").data
    else .error ("TypeError: unhashable type").data
  | .jarr l =>
    match asIndex k with
    | some i =>
      let j : Int := if i < 0 then i + l.length else i
      if h : 0 ≤ j ∧ j.toNat < l.length then .ok (l.get ⟨j.toNat, h.2⟩)
      else .error ("IndexError: list index out of range").data
    | none => .error ("TypeError: list indices must be integers").data
  | .jstr s =>
    match asIndex k with
    | some i =>
      let j : Int := if i < 0 then i + s.length else i
      if h : 0 ≤ j ∧ j.toNat < s.length then .ok (.jstr [s.get ⟨j.toNat, h.2⟩])
      else .error ("IndexError: string index out of range").data
    | none => .error ("TypeError: string indices must be integers").data
  | _ => .error ("TypeError: object is not subscriptable").data

/-- Python `s.isdigit()`: non-empty and all (ASCII) digits. -/
def pyIsDigitStr (s : PyStr) : Bool := !s.isEmpty && s.all Char.isDigit

/-- Decimal value of a digit string (Python `int(s)` for an
all-digits `s`). -/
def digitsToNat (s : PyStr) : Nat := s.foldl (fun a c => a * 10 + (c.toNat - 48)) 0

/-- The identifier coercion applied to question numbers
(src/gemini_analyzer.py lines 324-330, 357-363, 415-416): integers
stay, strings that strip to digit strings become integers, everything
else passes through unchanged. -/
def coerceId : JVal → JVal
  | .jint n => .jint n
  | .jstr s =>
    if pyIsDigitStr (pyStrip s) then .jint (digitsToNat (pyStrip s) : Int)
    else .jstr s
  | v => v

/-- The single-quote character (written via its code point). -/
def quoteC : Char := Char.ofNat 39

/-- Decimal rendering of an integer, as Python `str(n)`. -/
def intToChars (n : Int) : PyStr :=
  if n < 0 then '-' :: Nat.toDigits 10 n.natAbs else Nat.toDigits 10 n.toNat

mutual

/-- Python `repr` of a decoded value. -/
def reprJ : JVal → PyStr
  | .jnull => ("None").data
  | .jbool true => ("True").data
  | .jbool false => ("False").data
  | .jint n => intToChars n
  | .jstr s => quoteC :: s ++ [quoteC]
  | .jarr l => '[' :: reprJList l ++ [']']
  | .jobj f => '\x7b' :: reprJFields f ++ ['\x7d']

/-- Comma-separated `repr`s of a list of values. -/
def reprJList : List JVal → PyStr
  | [] => []
  | [x] => reprJ x
  | x :: y :: xs => reprJ x ++ ',' :: ' ' :: reprJList (y :: xs)

/-- Comma-separated `repr`s of dict items. -/
def reprJFields : List (JVal × JVal) → PyStr
  | [] => []
  | [(k, v)] => reprJ k ++ ':' :: ' ' :: reprJ v
  | (k, v) :: x :: xs => reprJ k ++ ':' :: ' ' :: reprJ v ++ ',' :: ' ' :: reprJFields (x :: xs)

end

/-- Python `str(v)` of a decoded value: strings are themselves,
everything else renders as its `repr`. -/
def strJ : JVal → PyStr
  | .jstr s => s
  | v => reprJ v

/-- JSON insignificant whitespace. -/
def jsonWsChar (c : Char) : Bool := c = ' ' || c = '\t' || c = '\n' || c = '\r'

/-- Skip JSON whitespace. -/
def skipJsonWs (s : PyStr) : PyStr := s.dropWhile jsonWsChar

/-- Hexadecimal digit value. -/
def hexVal (c : Char) : Option Nat :=
  if '0' ≤ c ∧ c ≤ '9' then some (c.toNat - 48)
  else if 'a' ≤ c ∧ c ≤ 'f' then some (c.toNat - 87)
  else if 'A' ≤ c ∧ c ≤ 'F' then some (c.toNat - 55)
  else none

/-- Body of a JSON string literal after the opening quote, with escape
sequences; returns the decoded characters and the rest after the
closing quote. -/
def parseStringBody : Nat → PyStr → Option (PyStr × PyStr)
  | 0, _ => none
  | _ + 1, [] => none
  | n + 1, c :: rest =>
    if c = '"' then some ([], rest)
    else if c = '\\' then
      match rest with
      | [] => none
      | e :: rest2 =>
        let esc : Option (Char × PyStr) :=
          if e = '"' then some ('"', rest2)
          else if e = '\\' then some ('\\', rest2)
          else if e = '/' then some ('/', rest2)
          else if e = 'b' then some ('\x08', rest2)
          else if e = 'f' then some ('\x0c', rest2)
          else if e = 'n' then some ('\n', rest2)
          else if e = 'r' then some ('\r', rest2)
          else if e = 't' then some ('\t', rest2)
          else if e = 'u' then
            match rest2 with
            | h1 :: h2 :: h3 :: h4 :: rest3 =>
              match hexVal h1, hexVal h2, hexVal h3, hexVal h4 with
              | some a, some b, some cc, some d =>
                some (Char.ofNat (((a * 16 + b) * 16 + cc) * 16 + d), rest3)
              | _, _, _, _ => none
            | _ => none
          else none
        match esc with
        | none => none
        | some (ch, rest4) =>
          match parseStringBody n rest4 with
          | none => none
          | some (str, r) => some (ch :: str, r)
    else
      match parseStringBody n rest with
      | none => none
      | some (str, r) => some (c :: str, r)

/-- A JSON number restricted to integers (the analyzer's data model has
no floating-point fields, so a fractional or exponent part is treated
as undecodable by this model). -/
def parseNumber (s : PyStr) : Option (JVal × PyStr) :=
  let neg : Bool := match s with | '-' :: _ => true | _ => false
  let s1 := match s with | '-' :: r => r | _ => s
  let ds := s1.takeWhile Char.isDigit
  let rest := s1.dropWhile Char.isDigit
  if ds.isEmpty then none
  else if ds.length > 1 && ds.headD ' ' = '0' then none
  else
    match rest with
    | '.' :: _ => none
    | 'e' :: _ => none
    | 'E' :: _ => none
    | _ => some (.jint (if neg then -(digitsToNat ds : Int) else (digitsToNat ds : Int)), rest)

/-- Insert a field, overwriting in place when the key is present
(Python dict assignment semantics). -/
def updateOrAppend (f : List (JVal × JVal)) (k v : JVal) : List (JVal × JVal) :=
  if (assocFind f k).isSome then
    f.map (fun kv => if kv.1 == k then (kv.1, v) else kv)
  else f ++ [(k, v)]

mutual

/-- Fuel-driven JSON value parser: returns the value and the unconsumed
rest. -/
def parseJVal : Nat → PyStr → Option (JVal × PyStr)
  | 0, _ => none
  | fuel + 1, s0 =>
    match skipJsonWs s0 with
    | [] => none
    | c :: r =>
      if c = 'n' then
        match r with
        | 'u' :: 'l' :: 'l' :: r2 => some (.jnull, r2)
        | _ => none
      else if c = 't' then
        match r with
        | 'r' :: 'u' :: 'e' :: r2 => some (.jbool true, r2)
        | _ => none
      else if c = 'f' then
        match r with
        | 'a' :: 'l' :: 's' :: 'e' :: r2 => some (.jbool false, r2)
        | _ => none
      else if c = '"' then
        match parseStringBody (r.length + 1) r with
        | none => none
        | some (str, rest) => some (.jstr str, rest)
      else if c = '[' then parseArrFirst fuel r
      else if c = '\x7b' then parseObjFirst fuel r
      else parseNumber (c :: r)

/-- After `[`: empty array or first item. -/
def parseArrFirst : Nat → PyStr → Option (JVal × PyStr)
  | 0, _ => none
  | fuel + 1, s =>
    match skipJsonWs s with
    | [] => none
    | c :: r =>
      if c = ']' then some (.jarr [], r)
      else
        match parseJVal fuel (c :: r) with
        | none => none
        | some (v, rest) => parseArrRest fuel [v] rest

/-- After an array item: `,` and another item, or `]`. -/
def parseArrRest : Nat → List JVal → PyStr → Option (JVal × PyStr)
  | 0, _, _ => none
  | fuel + 1, acc, s =>
    match skipJsonWs s with
    | [] => none
    | c :: r =>
      if c = ']' then some (.jarr acc.reverse, r)
      else if c = ',' then
        match parseJVal fuel r with
        | none => none
        | some (v, rest) => parseArrRest fuel (v :: acc) rest
      else none

/-- After `\x7b`: empty object or first field. -/
def parseObjFirst : Nat → PyStr → Option (JVal × PyStr)
  | 0, _ => none
  | fuel + 1, s =>
    match skipJsonWs s with
    | [] => none
    | c :: r =>
      if c = '\x7d' then some (.jobj [], r)
      else if c = '"' then
        match parseStringBody (r.length + 1) r with
        | none => none
        | some (key, rest) => parseObjValue fuel [] (.jstr key) rest
      else none

/-- After a field key: `:` and the value. -/
def parseObjValue : Nat → List (JVal × JVal) → JVal → PyStr → Option (JVal × PyStr)
  | 0, _, _, _ => none
  | fuel + 1, acc, key, s =>
    match skipJsonWs s with
    | ':' :: r =>
      match parseJVal fuel r with
      | none => none
      | some (v, rest) => parseObjRest fuel (updateOrAppend acc key v) rest
    | _ => none

/-- After a field: `,` and another field, or `\x7d`. -/
def parseObjRest : Nat → List (JVal × JVal) → PyStr → Option (JVal × PyStr)
  | 0, _, _ => none
  | fuel + 1, acc, s =>
    match skipJsonWs s with
    | [] => none
    | c :: r =>
      if c = '\x7d' then some (.jobj acc, r)
      else if c = ',' then
        match skipJsonWs r with
        | c2 :: r2 =>
          if c2 = '"' then
            match parseStringBody (r2.length + 1) r2 with
            | none => none
            | some (key, rest) => parseObjValue fuel acc (.jstr key) rest
          else none
        | [] => none
      else none

end

/-- Python `json.loads` on the analyzer's data model: decode one JSON
value and require only whitespace after it. -/
def jsonLoads (s : PyStr) : Option JVal :=
  match parseJVal (s.length + 2) s with
  | some (v, rest) => if (skipJsonWs rest).isEmpty then some v else none
  | none => none

/-- Shorthand for a JSON string key written as a Lean string literal. -/
def jkey (s : String) : JVal := .jstr s.data

/-- Whether a value is a Python `dict`. -/
def JVal.isObj : JVal → Bool
  | .jobj _ => true
  | _ => false

/-- Total `v.get(k, d)` for a receiver already known to be a dict
(returns the default on non-dicts; only used behind `isinstance`
checks, mirroring the source). -/
def dGetV (v k d : JVal) : JVal :=
  match v with
  | .jobj f => (assocFind f k).getD d
  | _ => d

/-- `dict.setdefault` on string-keyed dicts (total form, used where the
key is a hashable literal). -/
def sdefault (f : List (JVal × JVal)) (k d : JVal) : List (JVal × JVal) :=
  if (assocFind f k).isSome then f else f ++ [(k, d)]

/-- Fixed stand-in for the text of a `json.JSONDecodeError`. -/
def jsonErrMsg : List Char := ("Invalid JSON response").data

/-- The matching concept alignments of a reasoning entry
(src/gemini_analyzer.py lines 406-409): alignment dicts whose
`concept` field equals the target concept. -/
def matchingAlignments (concept : JVal) (alignments : List JVal) : List JVal :=
  alignments.filter (fun a => a.isObj && dGetV a (jkey "concept") .jnull == concept)

/-- The per-alignment confidence values with the `"medium"` default
(src/gemini_analyzer.py line 419). -/
def confidenceLevels (matching : List JVal) : List JVal :=
  matching.map (fun a => dGetV a (jkey "confidence") (jkey "medium"))

/-- The overall confidence chosen by the source's membership chain
(src/gemini_analyzer.py lines 420-425). -/
def overallConfidence (levels : List JVal) : JVal :=
  if levels.contains (jkey "high") then jkey "high"
  else if levels.contains (jkey "medium") then jkey "medium"
  else jkey "low"

/-- The display name extracted from one `considered_but_rejected` item
(src/gemini_analyzer.py line 439). -/
def rejectedName (r : JVal) : JVal :=
  match r with
  | .jobj rf => (assocFind rf (jkey "concept")).getD (.jstr [])
  | _ => .jstr (strJ r)

/-- The filtered entry assembled for a kept reasoning entry
(src/gemini_analyzer.py lines 414-442), from the entry's fields and
its matching alignments. -/
def buildEntry (ef : List (JVal × JVal)) (matching : List JVal) : JVal :=
  let base : List (JVal × JVal) :=
    [(jkey "question", coerceId ((assocFind ef (jkey "question")).getD .jnull)),
     (jkey "summary", (assocFind ef (jkey "summary")).getD (.jstr [])),
     (jkey "concept_alignments", .jarr matching),
     (jkey "confidence", overallConfidence (confidenceLevels matching))]
  if (assocFind ef (jkey "considered_but_rejected")).isSome then
    match (assocFind ef (jkey "considered_but_rejected")).getD (.jarr []) with
    | .jarr rejected =>
      .jobj (base ++
        [(jkey "considered_but_rejected",
          .jarr ((rejected.map rejectedName).filter pyTruthy))])
    | _ => .jobj base
  else .jobj base

/-- One iteration of the `_extract_concept_reasoning` loop
(src/gemini_analyzer.py lines 401-444): `.ok none` means the entry is
skipped, `.ok (some fe)` the filtered entry appended, `.error` an
escaping exception (`.get` on a non-dict entry). -/
def processEntry (concept entry : JVal) : Except (List Char) (Option JVal) :=
  match entry with
  | .jobj ef =>
    let ca := (assocFind ef (jkey "concept_alignments")).getD (.jarr [])
    match ca with
    | .jarr alignments =>
      let matching := matchingAlignments concept alignments
      if matching.isEmpty then .ok none
      else .ok (some (buildEntry ef matching))
    | _ => .ok none
  | _ => .error ("AttributeError: object has no attribute get").data

/-- The fields of a value that is a dict (and `[]` otherwise). -/
def fieldsOf : JVal → List (JVal × JVal)
  | .jobj f => f
  | _ => []

/-- The matching alignments a reasoning entry contributes for a target
concept: empty whenever its `concept_alignments` is missing or not a
list. -/
def keptAlignments (concept e : JVal) : List JVal :=
  match dGetV e (jkey "concept_alignments") (.jarr []) with
  | .jarr l => matchingAlignments concept l
  | _ => []

/-- Whether the Reasoning Projector keeps a reasoning entry for a
target concept. -/
def keepEntry (concept e : JVal) : Bool := !(keptAlignments concept e).isEmpty

/-- The projected entry the Reasoning Projector produces for a kept
reasoning entry. -/
def projE (concept e : JVal) : JVal := buildEntry (fieldsOf e) (keptAlignments concept e)

/-- The `_extract_concept_reasoning` loop over all entries, in order. -/
def processEntries (concept : JVal) : List JVal → Except (List Char) (List JVal)
  | [] => .ok []
  | e :: rest =>
    match processEntry concept e with
    | .error err => .error err
    | .ok none => processEntries concept rest
    | .ok (some fe) =>
      match processEntries concept rest with
      | .error err => .error err
      | .ok fes => .ok (fe :: fes)

/-- `GeminiAnalyzer._extract_concept_reasoning`
(src/gemini_analyzer.py lines 384-446). -/
def extract_concept_reasoning (question_reasoning concept : JVal) :
    Except (List Char) (List JVal) :=
  match pyIter (if pyTruthy question_reasoning then question_reasoning else .jarr []) with
  | .error e => .error e
  | .ok entries => processEntries concept entries

/-- The parse-and-normalize section of `analyze_student_performance`
(src/gemini_analyzer.py lines 256-269), given the raw response text. -/
def aspInner (raw : PyStr) : Except (List Char) (List (JVal × JVal)) :=
  match jsonLoads (extractResponseText raw) with
  | none => .error jsonErrMsg
  | some v =>
    match v with
    | .jobj f =>
      .ok (sdefault (sdefault (sdefault (sdefault f
             (jkey "mistakes") (.jarr []))
             (jkey "details") (.jobj []))
             (jkey "reasoning") (.jarr []))
             (jkey "evaluation_notes") (.jarr []))
    | _ => .error ("Performance response must be a JSON object").data

/-- `GeminiAnalyzer.analyze_student_performance`
(src/gemini_analyzer.py lines 180-273): with no question numbers it
returns the empty result without any inference call; otherwise the
response for this concept is parsed and normalized, any failure being
re-raised with a message naming the concept. -/
def analyze_student_performance (raw : PyStr) (concept : JVal)
    (question_numbers : List JVal) : Except (List Char) (List (JVal × JVal)) :=
  if question_numbers.isEmpty then
    .ok [(jkey "mistakes", .jarr []), (jkey "details", .jobj []),
         (jkey "reasoning", .jarr []), (jkey "evaluation_notes", .jarr [])]
  else
    match aspInner raw with
    | .ok p => .ok p
    | .error e =>
      .error (("Error analyzing student performance for ").data ++ strJ concept
               ++ (": ").data ++ e)

/-- `dict.setdefault(concept, [])` over the supplied concepts, in
order (src/gemini_analyzer.py lines 168-170). -/
def ensureConcepts (cm : List (JVal × JVal)) :
    List JVal → Except (List Char) (List (JVal × JVal))
  | [] => .ok cm
  | c :: cs =>
    match pySetdefault cm c (.jarr []) with
    | .error e => .error e
    | .ok cm2 => ensureConcepts cm2 cs

/-- The guarded body of `analyze_question_paper`
(src/gemini_analyzer.py lines 143-176): decode, check `concept_map`
is present and an object, default `question_reasoning` and
`evaluation_notes`, then guarantee every concept a key. -/
def aqpInner (raw : PyStr) (conceptList : List JVal) :
    Except (List Char) (List (JVal × JVal)) :=
  match jsonLoads (extractResponseText raw) with
  | none => .error jsonErrMsg
  | some v =>
    match pyContains v (jkey "concept_map") with
    | .error e => .error e
    | .ok hasCM =>
      if !hasCM then .error ("Response missing \x27concept_map\x27").data
      else
        match pyIndex v (jkey "concept_map") with
        | .error e => .error e
        | .ok cmv =>
          match cmv with
          | .jobj cmFields =>
            match v with
            | .jobj vf =>
              let vf1 := sdefault vf (jkey "question_reasoning") (.jarr [])
              let vf2 := sdefault vf1 (jkey "evaluation_notes") (.jarr [])
              match ensureConcepts cmFields conceptList with
              | .error e => .error e
              | .ok cm2 => .ok (updateOrAppend vf2 (jkey "concept_map") (.jobj cm2))
            | _ => .error ("TypeError: object is not subscriptable").data
          | _ => .error ("\x27concept_map\x27 must be an object/dictionary").data

/-- `GeminiAnalyzer.analyze_question_paper`
(src/gemini_analyzer.py lines 74-178): the prompt enumerates the
concepts (outside the handler), then any failure while decoding or
validating the response is re-raised with a message naming the
stage. -/
def analyze_question_paper (raw : PyStr) (concepts : JVal) :
    Except (List Char) (List (JVal × JVal)) :=
  match pyIter concepts with
  | .error e => .error e
  | .ok conceptList =>
    match aqpInner raw conceptList with
    | .ok r => .ok r
    | .error e => .error (("Error analyzing question paper: ").data ++ e)

/-- `GeminiAnalyzer.extract_concepts`
(src/gemini_analyzer.py lines 35-72): decode the response, return the
decoded value verbatim. -/
def extract_concepts (raw : PyStr) : Except (List Char) JVal :=
  match jsonLoads (extractResponseText raw) with
  | some v => .ok v
  | none => .error (("Error extracting concepts: ").data ++ jsonErrMsg)

/-- One result dictionary appended by `analyze_all_concepts`
(src/gemini_analyzer.py lines 336-345 and 365-374). -/
structure ConceptRecord where
  concept : JVal
  tested_count : Nat
  mistakes_count : Nat
  mistake_questions : List JVal
  details : JVal
  concept_reasoning : List JVal
  performance_reasoning : JVal
  performance_notes : JVal
deriving DecidableEq

/-- The body of the per-concept loop of `analyze_all_concepts`
(src/gemini_analyzer.py lines 318-374): resolve and coerce the mapped
question numbers, project the reasoning, then either synthesize the
zero record (empty list) or evaluate the student's performance.
`perfResp` supplies the raw model response text for a
performance-evaluation inference call. -/
def processConcept (perfResp : JVal → List JVal → PyStr)
    (cmFields : List (JVal × JVal)) (question_reasoning : JVal) (concept : JVal) :
    Except (List Char) ConceptRecord :=
  match pyDictGet cmFields concept (.jarr []) with
  | .error e => .error e
  | .ok rawNums =>
    match pyIter rawNums with
    | .error e => .error e
    | .ok rawList =>
      let question_numbers := rawList.map coerceId
      match extract_concept_reasoning question_reasoning concept with
      | .error e => .error e
      | .ok concept_reasoning =>
        if question_numbers.isEmpty then
          .ok { concept := concept, tested_count := 0, mistakes_count := 0,
                mistake_questions := [], details := .jobj [],
                concept_reasoning := concept_reasoning,
                performance_reasoning := .jarr [], performance_notes := .jarr [] }
        else
          match analyze_student_performance (perfResp concept question_numbers)
              concept question_numbers with
          | .error e => .error e
          | .ok performance =>
            match pyIter ((assocFind performance (jkey "mistakes")).getD (.jarr [])) with
            | .error e => .error e
            | .ok mlist =>
              let mistake_questions := mlist.map coerceId
              match pyIndex (.jobj performance) (jkey "details") with
              | .error e => .error e
              | .ok details =>
                .ok { concept := concept,
                      tested_count := question_numbers.length,
                      mistakes_count := mistake_questions.length,
                      mistake_questions := mistake_questions,
                      details := details,
                      concept_reasoning := concept_reasoning,
                      performance_reasoning :=
                        (assocFind performance (jkey "reasoning")).getD (.jarr []),
                      performance_notes :=
                        (assocFind performance (jkey "evaluation_notes")).getD (.jarr []) }

/-- Sequential effectful map: the first raised exception aborts the
whole traversal with no partial output. -/
def mapMExcept (f : α → Except ε β) : List α → Except ε (List β)
  | [] => .ok []
  | x :: xs =>
    match f x with
    | .error e => .error e
    | .ok y =>
      match mapMExcept f xs with
      | .error e => .error e
      | .ok ys => .ok (y :: ys)

/-- The raw model response texts consumed by one `analyze_all_concepts`
run: one for concept extraction, one for question mapping, and one per
performance-evaluation call (keyed by the concept and its question
numbers). -/
structure Responses where
  conceptsResp : PyStr
  mappingResp : PyStr
  perfResp : JVal → List JVal → PyStr

/-- `GeminiAnalyzer.analyze_all_concepts`
(src/gemini_analyzer.py lines 275-382): the three staged calls; any
uncaught exception aborts the run with no partial results. -/
def analyze_all_concepts (r : Responses) : Except (List Char) (List ConceptRecord) :=
  match extract_concepts r.conceptsResp with
  | .error e => .error e
  | .ok conceptsV =>
    match analyze_question_paper r.mappingResp conceptsV with
    | .error e => .error e
    | .ok qpaFields =>
      let cq := (assocFind qpaFields (jkey "concept_map")).getD (.jobj [])
      let qr := (assocFind qpaFields (jkey "question_reasoning")).getD (.jarr [])
      match pyLen conceptsV with
      | .error e => .error e
      | .ok _ =>
        match pyIter conceptsV with
        | .error e => .error e
        | .ok conceptList =>
          match cq with
          | .jobj cmFields => mapMExcept (processConcept r.perfResp cmFields qr) conceptList
          | _ => .error ("AttributeError: object has no attribute get").data

/-- The raw question-number list a run of `analyze_all_concepts`
resolves for a concept from the concept map (the value iterated at
src/gemini_analyzer.py lines 322-324), recomputed from the same
responses. -/
def resolvedRawNums (r : Responses) (concept : JVal) : Except (List Char) (List JVal) :=
  match extract_concepts r.conceptsResp with
  | .error e => .error e
  | .ok conceptsV =>
    match analyze_question_paper r.mappingResp conceptsV with
    | .error e => .error e
    | .ok qpaFields =>
      match (assocFind qpaFields (jkey "concept_map")).getD (.jobj []) with
      | .jobj cmFields =>
        match pyDictGet cmFields concept (.jarr []) with
        | .error e => .error e
        | .ok rawNums => pyIter rawNums
      | _ => .error ("AttributeError: object has no attribute get").data

/-- Modelled from the spec: the rank of a confidence value under the
total order low < medium < high (spec section 3 ConfidenceLevel). -/
def confRank (v : JVal) : Nat :=
  if v == jkey "high" then 2 else if v == jkey "medium" then 1 else 0

/-- Modelled from the spec: the aggregate confidence of a list of
confidence values is their maximum under the total order
low < medium < high (spec sections 3 and 4.6): values are ranked and
the maximum rank mapped back. -/
def specMaxConfidence (levels : List JVal) : JVal :=
  if levels.foldr (fun l a => Nat.max (confRank l) a) 0 = 2 then jkey "high"
  else if levels.foldr (fun l a => Nat.max (confRank l) a) 0 = 1 then jkey "medium"
  else jkey "low"

/-- Modelled from the spec: the four error kinds of the error taxonomy
(spec section 7); the question-level pipeline that raises and catches
them (`identify_questions`, `analyze_single_question` and their
driver, spec section 4.4) is not part of the sources under src/. -/
inductive QError where
  | inference : PyStr → QError
  | parse : PyStr → QError
  | contract : PyStr → QError
  | input : PyStr → QError
deriving DecidableEq

/-- The diagnostic text carried by an error. -/
def QError.text : QError → PyStr
  | .inference m => m
  | .parse m => m
  | .contract m => m
  | .input m => m

/-- Modelled from the spec: a QuestionRecord of the question-level
pipeline (spec section 3). -/
structure QuestionRecord where
  question_number : Int
  question_text : PyStr
  gemini_solution : PyStr
  student_answer : PyStr
  has_mistake : Bool
  mistake_description : PyStr
deriving DecidableEq

/-- Modelled from the spec: the placeholder record synthesized for a
soft-failed question (spec sections 4.4 and 7): the error text stands
in for the unavailable fields and the mistake flag is false. -/
def placeholderRecord (n : Int) (e : QError) : QuestionRecord :=
  { question_number := n, question_text := e.text, gemini_solution := e.text,
    student_answer := e.text, has_mistake := false, mistake_description := e.text }

/-- Modelled from the spec: the question-level driver (spec section
4.4): loop over the identified question numbers in order, analyze each
one, catching any of the four error kinds locally and converting it to
the placeholder record, never aborting the batch. -/
def analyzeQuestionsBatch (analyzeSingle : Int → Except QError QuestionRecord)
    (questions : List Int) : List QuestionRecord :=
  questions.map (fun n =>
    match analyzeSingle n with
    | .ok rec => rec
    | .error e => placeholderRecord n e)

/-- A single-question analyzer used to witness C9: question 1 succeeds,
question 2 raises an inference error. -/
def wSingle : Int → Except QError QuestionRecord := fun n =>
  if n = 1 then
    .ok { question_number := 1, question_text := ("q").data,
          gemini_solution := ("s").data, student_answer := ("a").data,
          has_mistake := true, mistake_description := ("m").data }
  else .error (.inference ("boom").data)


/-- A reasoning entry used to witness the projector claims: two
alignments for concept A with confidences low and high, and one for
concept B. -/
def wEntry1 : JVal :=
  .jobj [(jkey "question", .jstr ['3']),
         (jkey "concept_alignments",
          .jarr [.jobj [(jkey "concept", .jstr ['A']), (jkey "confidence", jkey "low")],
                 .jobj [(jkey "concept", .jstr ['A']), (jkey "confidence", jkey "high")],
                 .jobj [(jkey "concept", .jstr ['B'])]])]

/-- A reasoning entry with no alignment for concept A. -/
def wEntry2 : JVal :=
  .jobj [(jkey "question", .jint 4),
         (jkey "concept_alignments",
          .jarr [.jobj [(jkey "concept", .jstr ['B']), (jkey "confidence", jkey "low")]])]

/-- A reasoning entry whose alignments for concept A carry confidences
low and medium. -/
def wEntry3 : JVal :=
  .jobj [(jkey "question", .jint 5),
         (jkey "concept_alignments",
          .jarr [.jobj [(jkey "concept", .jstr ['A']), (jkey "confidence", jkey "low")],
                 .jobj [(jkey "concept", .jstr ['A']), (jkey "confidence", jkey "medium")]])]

/-- A concrete mapping-stage response used to witness C2: the model
returned a concept map covering only concept A. -/
def rawMapW : PyStr := ("\x7b\"concept_map\": \x7b\"A\": [1]\x7d\x7d").data

/-- Whether a decoded mapping-stage response carries a dict-shaped
`concept_map`. -/
def hasDictConceptMap : JVal → Bool
  | .jobj f =>
    match assocFind f (jkey "concept_map") with
    | some (.jobj _) => true
    | _ => false
  | _ => false

/-- Responses used to witness C4: a well-formed concept extraction but
a mapping response that is not JSON. -/
def rBadW : Responses :=
  { conceptsResp := ("[\"A\"]").data,
    mappingResp := ("not json").data,
    perfResp := fun _ _ => [] }

/-- Responses for which the model reports more mistakes than mapped
questions: one concept A tested by one question, and a performance
response listing two mistakes. -/
def cexC8 : Responses :=
  { conceptsResp := ("[\"A\"]").data,
    mappingResp := ("\x7b\"concept_map\": \x7b\"A\": [1]\x7d\x7d").data,
    perfResp := fun _ _ => ("\x7b\"mistakes\": [1, 2]\x7d").data }

/-- The record the run on `cexC8` produces. -/
def recC8 : ConceptRecord :=
  { concept := .jstr ['A'], tested_count := 1, mistakes_count := 2,
    mistake_questions := [.jint 1, .jint 2], details := .jobj [],
    concept_reasoning := [],
    performance_reasoning := .jarr [], performance_notes := .jarr [] }

/-- Responses whose performance stage reports no mistakes, used to
witness the amended bound. -/
def c8wR : Responses :=
  { conceptsResp := ("[\"A\"]").data,
    mappingResp := ("\x7b\"concept_map\": \x7b\"A\": [1]\x7d\x7d").data,
    perfResp := fun _ _ => ("\x7b\"mistakes\": []\x7d").data }

/-- The record the run on `c8wR` produces. -/
def recC8W : ConceptRecord :=
  { concept := .jstr ['A'], tested_count := 1, mistakes_count := 0,
    mistake_questions := [], details := .jobj [],
    concept_reasoning := [],
    performance_reasoning := .jarr [], performance_notes := .jarr [] }

/-- Responses with two concepts where concept B has no mapped
questions (spec scenario B). -/
def c3wR : Responses :=
  { conceptsResp := ("[\"A\", \"B\"]").data,
    mappingResp := ("\x7b\"concept_map\": \x7b\"A\": [1], \"B\": []\x7d\x7d").data,
    perfResp := fun _ _ => ("\x7b\"mistakes\": []\x7d").data }

/-- The zero record the run on `c3wR` produces for concept B. -/
def recC3B : ConceptRecord :=
  { concept := .jstr ['B'], tested_count := 0, mistakes_count := 0,
    mistake_questions := [], details := .jobj [],
    concept_reasoning := [],
    performance_reasoning := .jarr [], performance_notes := .jarr [] }

/-- The normalized performance dict for a response reporting no
mistakes. -/
def perfEmptyFields : List (JVal × JVal) :=
  [(jkey "mistakes", .jarr []), (jkey "details", .jobj []),
   (jkey "reasoning", .jarr []), (jkey "evaluation_notes", .jarr [])]

/-- A payload wrapped in a fenced code block with a language tag. -/
def wrapTag (p : PyStr) : PyStr := fenceTag ++ '\n' :: (p ++ '\n' :: fenceM)

/-- A payload wrapped in a fenced code block without a language tag. -/
def wrapNoTag (p : PyStr) : PyStr := fenceM ++ '\n' :: (p ++ '\n' :: fenceM)

/-- The full response parse: fence stripping followed by JSON
decoding. -/
def parseResponse (t : PyStr) : Option JVal := jsonLoads (extractResponseText t)

/-- A JSON array payload containing the fence marker inside a string
literal. -/
def cexPayload : PyStr := '[' :: '"' :: (fenceM ++ ['"', ']'])

/-! ## Claim theorems -/

/-- C7: for every identifier in a concept's mapped question-number
list and in a performance response's mistakes list, coercion maps an
integer to itself, a whitespace-padded digit string to the
corresponding integer, leaves any other value unchanged, and the
coerced list drops nothing (it is the elementwise image, of the same
length). -/
theorem C7_identifier_coercion :
    (∀ n : Int, coerceId (.jint n) = .jint n) ∧
    (∀ s : PyStr, pyIsDigitStr (pyStrip s) = true →
      coerceId (.jstr s) = .jint (digitsToNat (pyStrip s) : Int)) ∧
    (∀ v : JVal, (∀ n : Int, v ≠ .jint n) →
      (∀ s : PyStr, v = .jstr s → pyIsDigitStr (pyStrip s) = false) →
      coerceId v = v) ∧
    (∀ l : List JVal, (l.map coerceId).length = l.length) := by
  refine ⟨fun n => rfl, fun s h => by simp [coerceId, h], fun v h1 h2 => ?_,
    fun l => by simp⟩
  cases v with
  | jnull => rfl
  | jbool b => rfl
  | jint n => exact absurd rfl (h1 n)
  | jstr s => simp [coerceId, h2 s rfl]
  | jarr l => rfl
  | jobj f => rfl

/-- Witness for C7 at concrete inputs. -/
theorem C7_identifier_coercion_witness :
    coerceId (.jstr [' ', '3', ' ']) = .jint 3 ∧
    coerceId (.jint 7) = .jint 7 ∧
    coerceId (.jstr ['4', 'a']) = .jstr ['4', 'a'] := by
  refine ⟨?_, C7_identifier_coercion.1 7, ?_⟩
  · rw [C7_identifier_coercion.2.1 [' ', '3', ' '] (by decide)]; decide
  · exact C7_identifier_coercion.2.2.1 (.jstr ['4', 'a'])
      (fun n h => JVal.noConfusion h) (fun s hs => by cases hs; decide)

/-- C9: in the question-level pipeline every per-question error of the
four kinds is caught and converted into a placeholder record whose
mistake-description contains the error text and whose mistake flag is
false, successful records pass through at their position, and the
batch always yields one record per identified question. -/
theorem C9_question_pipeline_soft_fail
    (analyzeSingle : Int → Except QError QuestionRecord) (questions : List Int) :
    (analyzeQuestionsBatch analyzeSingle questions).length = questions.length ∧
    (∀ (i : Nat) (n : Int) (e : QError), questions[i]? = some n →
      analyzeSingle n = .error e →
      ∃ rec : QuestionRecord,
        (analyzeQuestionsBatch analyzeSingle questions)[i]? = some rec ∧
        rec.has_mistake = false ∧ Occurs e.text rec.mistake_description) ∧
    (∀ (i : Nat) (n : Int) (rec : QuestionRecord), questions[i]? = some n →
      analyzeSingle n = .ok rec →
      (analyzeQuestionsBatch analyzeSingle questions)[i]? = some rec) := by
  refine ⟨by simp [analyzeQuestionsBatch], fun i n e hq hs => ?_, fun i n rec hq hs => ?_⟩
  · exact ⟨placeholderRecord n e,
      by simp [analyzeQuestionsBatch, List.getElem?_map, hq, hs], rfl,
      ⟨[], [], by simp [placeholderRecord]⟩⟩
  · simp [analyzeQuestionsBatch, List.getElem?_map, hq, hs]

/-- Witness for C9 at a concrete batch. -/
theorem C9_question_pipeline_soft_fail_witness :
    (analyzeQuestionsBatch wSingle [1, 2]).length = 2 ∧
    (∃ rec : QuestionRecord, (analyzeQuestionsBatch wSingle [1, 2])[1]? = some rec ∧
      rec.has_mistake = false ∧
      Occurs (QError.inference ("boom").data).text rec.mistake_description) := by
  refine ⟨(C9_question_pipeline_soft_fail wSingle [1, 2]).1, ?_⟩
  exact (C9_question_pipeline_soft_fail wSingle [1, 2]).2.1 1 2
    (QError.inference ("boom").data) rfl rfl

/-- `Nat.max` of a dominated value (stated on `Nat.max` verbatim). -/
theorem natMax_eq_left {a b : Nat} (h : b ≤ a) : Nat.max a b = a := Nat.max_eq_left h

/-- `Nat.max` of a dominating value (stated on `Nat.max` verbatim). -/
theorem natMax_eq_right {a b : Nat} (h : a ≤ b) : Nat.max a b = b := Nat.max_eq_right h

/-- Confidence ranks never exceed 2. -/
theorem confRank_le_two (v : JVal) : confRank v ≤ 2 := by
  unfold confRank
  split
  · exact Nat.le_refl 2
  · split <;> omega

/-- Rank 2 characterizes the high confidence value. -/
theorem confRank_eq_two_iff (v : JVal) : confRank v = 2 ↔ v = jkey "high" := by
  unfold confRank
  split
  · rename_i h
    simp only [beq_iff_eq] at h
    simp [h]
  · rename_i h
    simp only [beq_iff_eq] at h
    constructor
    · intro h2
      split at h2 <;> omega
    · intro hv
      exact absurd hv h

/-- A non-high value ranks at most 1. -/
theorem confRank_le_one (v : JVal) (h : v ≠ jkey "high") : confRank v ≤ 1 := by
  unfold confRank
  split
  · rename_i hb
    simp only [beq_iff_eq] at hb
    exact absurd hb h
  · split <;> omega

/-- A value that is neither high nor medium ranks 0. -/
theorem confRank_eq_zero (v : JVal) (h1 : v ≠ jkey "high") (h2 : v ≠ jkey "medium") :
    confRank v = 0 := by
  unfold confRank
  split
  · rename_i hb
    simp only [beq_iff_eq] at hb
    exact absurd hb h1
  · split
    · rename_i hb
      simp only [beq_iff_eq] at hb
      exact absurd hb h2
    · rfl

/-- The confidence fold is bounded by 2. -/
theorem foldConf_le_two (levels : List JVal) :
    levels.foldr (fun l a => Nat.max (confRank l) a) 0 ≤ 2 := by
  induction levels with
  | nil => simp
  | cons x xs ih => exact Nat.max_le.mpr ⟨confRank_le_two x, ih⟩

/-- The confidence fold reaches 2 exactly when a high value occurs. -/
theorem foldConf_eq_two_iff (levels : List JVal) :
    (levels.foldr (fun l a => Nat.max (confRank l) a) 0 = 2) ↔ (jkey "high") ∈ levels := by
  induction levels with
  | nil => simp
  | cons x xs ih =>
    simp only [List.foldr, List.mem_cons]
    constructor
    · intro h
      rcases Nat.le_total (confRank x) (xs.foldr (fun l a => Nat.max (confRank l) a) 0) with
        hle | hle
      · rw [natMax_eq_right hle] at h
        exact Or.inr (ih.mp h)
      · rw [natMax_eq_left hle] at h
        exact Or.inl ((confRank_eq_two_iff x).mp h).symm
    · intro h
      rcases h with h | h
      · have hx : confRank x = 2 := (confRank_eq_two_iff x).mpr h.symm
        rw [hx]
        exact natMax_eq_left (foldConf_le_two xs)
      · rw [ih.mpr h]
        exact natMax_eq_right (confRank_le_two x)

/-- Without a high value the confidence fold is bounded by 1. -/
theorem foldConf_le_one (levels : List JVal) (h : (jkey "high") ∉ levels) :
    levels.foldr (fun l a => Nat.max (confRank l) a) 0 ≤ 1 := by
  induction levels with
  | nil => simp
  | cons x xs ih =>
    have hx : x ≠ jkey "high" := fun he => h (by simp [he])
    exact Nat.max_le.mpr ⟨confRank_le_one x hx, ih (fun hm => h (by simp [hm]))⟩

/-- With a medium value but no high value the confidence fold is 1. -/
theorem foldConf_eq_one (levels : List JVal) (hh : (jkey "high") ∉ levels)
    (hm : (jkey "medium") ∈ levels) :
    levels.foldr (fun l a => Nat.max (confRank l) a) 0 = 1 := by
  induction levels with
  | nil => simp at hm
  | cons x xs ih =>
    have hx : x ≠ jkey "high" := fun he => hh (by simp [he])
    rcases List.mem_cons.mp hm with h | h
    · have hr : confRank x = 1 := by
        rw [← h]
        decide
      simp only [List.foldr, hr]
      exact natMax_eq_left (foldConf_le_one xs (fun hc => hh (by simp [hc])))
    · have := ih (fun hc => hh (by simp [hc])) h
      simp only [List.foldr, this]
      exact natMax_eq_right (confRank_le_one x hx)

/-- Without high or medium values the confidence fold is 0. -/
theorem foldConf_eq_zero (levels : List JVal) (hh : (jkey "high") ∉ levels)
    (hm : (jkey "medium") ∉ levels) :
    levels.foldr (fun l a => Nat.max (confRank l) a) 0 = 0 := by
  induction levels with
  | nil => rfl
  | cons x xs ih =>
    have hx := confRank_eq_zero x (fun he => hh (by simp [he])) (fun he => hm (by simp [he]))
    simp only [List.foldr, hx]
    rw [ih (fun hc => hh (by simp [hc])) (fun hc => hm (by simp [hc]))]
    rfl

/-- The source's membership chain computes exactly the spec's ordered
maximum of confidence values. -/
theorem overall_eq_specMax (levels : List JVal) :
    overallConfidence levels = specMaxConfidence levels := by
  unfold overallConfidence specMaxConfidence
  by_cases hh : (jkey "high") ∈ levels
  · have h2 := (foldConf_eq_two_iff levels).mpr hh
    have hc : levels.contains (jkey "high") = true := List.elem_iff.mpr hh
    simp [hc, h2, hh]
  · have hc : levels.contains (jkey "high") = false := by
      by_contra hcc
      exact hh (List.elem_iff.mp (Bool.of_not_eq_false hcc))
    have h2 : levels.foldr (fun l a => Nat.max (confRank l) a) 0 ≠ 2 := by
      intro hx
      exact hh ((foldConf_eq_two_iff levels).mp hx)
    by_cases hm : (jkey "medium") ∈ levels
    · have h1 := foldConf_eq_one levels hh hm
      have hmc : levels.contains (jkey "medium") = true := List.elem_iff.mpr hm
      simp [hc, hmc, h1, h2, hh, hm]
    · have h0 := foldConf_eq_zero levels hh hm
      have hmc : levels.contains (jkey "medium") = false := by
        by_contra hcc
        exact hm (List.elem_iff.mp (Bool.of_not_eq_false hcc))
      simp [hc, hmc, h0, h2, hh, hm]

/-- The `concept_alignments` field of a projected entry holds exactly
the matching alignments. -/
theorem projE_alignments (concept e : JVal) :
    dGetV (projE concept e) (jkey "concept_alignments") .jnull =
      .jarr (keptAlignments concept e) := by
  simp only [projE, buildEntry]
  split
  · split <;> rfl
  · rfl

/-- The `confidence` field of a projected entry is the spec's ordered
maximum of the matching alignments' confidences. -/
theorem projE_confidence (concept e : JVal) :
    dGetV (projE concept e) (jkey "confidence") .jnull =
      specMaxConfidence (confidenceLevels (keptAlignments concept e)) := by
  have h := overall_eq_specMax (confidenceLevels (keptAlignments concept e))
  simp only [projE, buildEntry]
  split
  · split
    · exact h
    · exact h
  · exact h

/-- `processEntry` on a dict entry: keep-and-build or skip, never an
error. -/
theorem processEntry_obj_eq (concept : JVal) (ef : List (JVal × JVal)) :
    processEntry concept (.jobj ef) =
      .ok (if keepEntry concept (.jobj ef) then some (projE concept (.jobj ef)) else none) := by
  simp only [processEntry, keepEntry, keptAlignments, dGetV, projE, fieldsOf]
  rcases hca : (assocFind ef (jkey "concept_alignments")).getD (.jarr []) with _ | b | n | sv | l | f
  · rfl
  · rfl
  · rfl
  · rfl
  · by_cases hm : (matchingAlignments concept l).isEmpty
    · simp [hm]
    · simp only [Bool.not_eq_true] at hm
      simp [hm, buildEntry, keptAlignments, dGetV, hca]
  · rfl

/-- The `_extract_concept_reasoning` loop over dict entries is the
filter-and-project of the kept entries, in input order. -/
theorem processEntries_eq_filter_map (concept : JVal) (qr : List JVal)
    (h : ∀ e ∈ qr, e.isObj = true) :
    processEntries concept qr =
      .ok ((qr.filter (keepEntry concept)).map (projE concept)) := by
  induction qr with
  | nil => rfl
  | cons e rest ih =>
    have he := h e (List.mem_cons_self e rest)
    have ih' := ih (fun x hx => h x (List.mem_cons_of_mem e hx))
    cases e with
    | jobj ef =>
      simp only [processEntries]
      rw [processEntry_obj_eq]
      by_cases hk : keepEntry concept (.jobj ef)
      · simp only [hk, if_true, ih', List.filter_cons, List.map_cons]
      · simp only [hk, Bool.false_eq_true, if_false, ih', List.filter_cons]
    | jnull => simp [JVal.isObj] at he
    | jbool b => simp [JVal.isObj] at he
    | jint n => simp [JVal.isObj] at he
    | jstr sv => simp [JVal.isObj] at he
    | jarr l => simp [JVal.isObj] at he

/-- `_extract_concept_reasoning` on a list of dict entries. -/
theorem ecr_list_eq (concept : JVal) (qr : List JVal)
    (h : ∀ e ∈ qr, e.isObj = true) :
    extract_concept_reasoning (.jarr qr) concept =
      .ok ((qr.filter (keepEntry concept)).map (projE concept)) := by
  cases qr with
  | nil => rfl
  | cons x rest => exact processEntries_eq_filter_map concept (x :: rest) h

/-- C5: for every question-reasoning list (of dict entries) and target
concept, the Reasoning Projector returns exactly the entries with at
least one alignment whose concept equals the target (others dropped),
in input order, each output entry restricted to its matching
alignments and carrying an aggregate confidence equal to their maximum
under low < medium < high, absent confidences defaulting to medium. -/
theorem C5_reasoning_projector (concept : JVal) (qr : List JVal)
    (h : ∀ e ∈ qr, e.isObj = true) :
    extract_concept_reasoning (.jarr qr) concept =
      .ok ((qr.filter (keepEntry concept)).map (projE concept)) ∧
    (∀ e : JVal, dGetV (projE concept e) (jkey "concept_alignments") .jnull =
      .jarr (keptAlignments concept e)) ∧
    (∀ e : JVal, dGetV (projE concept e) (jkey "confidence") .jnull =
      specMaxConfidence (confidenceLevels (keptAlignments concept e))) :=
  ⟨ecr_list_eq concept qr h, fun e => projE_alignments concept e,
   fun e => projE_confidence concept e⟩

/-- Witness for C5 at a concrete reasoning list: the entry with
alignments for A survives (with confidences low and high aggregating
to high), the entry without is dropped, and low with medium
aggregates to medium. -/
theorem C5_reasoning_projector_witness :
    extract_concept_reasoning (.jarr [wEntry1, wEntry2]) (.jstr ['A']) =
      .ok [projE (.jstr ['A']) wEntry1] ∧
    dGetV (projE (.jstr ['A']) wEntry1) (jkey "confidence") .jnull = jkey "high" ∧
    dGetV (projE (.jstr ['A']) wEntry3) (jkey "confidence") .jnull = jkey "medium" := by
  have h := C5_reasoning_projector (.jstr ['A']) [wEntry1, wEntry2] (by decide)
  refine ⟨?_, ?_, ?_⟩
  · rw [h.1]
    exact congrArg Except.ok (by decide)
  · rw [h.2.2 wEntry1]
    decide
  · rw [(C5_reasoning_projector (.jstr ['A']) [] (by decide)).2.2 wEntry3]
    decide

/-- C10: the Reasoning Projector is total on its intended inputs: a
none or empty reasoning value yields the empty list, any list of dict
entries never raises, an entry whose alignments are missing, not a
list, or without a match for the concept is skipped, non-dict
alignment items are ignored when matching, a missing confidence
defaults to medium, and non-dict rejected items are converted to their
string form. -/
theorem C10_projector_safety :
    (∀ concept : JVal, extract_concept_reasoning .jnull concept = .ok []) ∧
    (∀ concept : JVal, extract_concept_reasoning (.jarr []) concept = .ok []) ∧
    (∀ (concept : JVal) (qr : List JVal), (∀ e ∈ qr, e.isObj = true) →
      ∃ out, extract_concept_reasoning (.jarr qr) concept = .ok out) ∧
    (∀ (concept : JVal) (ef : List (JVal × JVal)),
      keptAlignments concept (.jobj ef) = [] →
      processEntry concept (.jobj ef) = .ok none) ∧
    (∀ (concept a : JVal) (l : List JVal), a.isObj = false →
      a ∉ matchingAlignments concept l) ∧
    (∀ (a : JVal) (f : List (JVal × JVal)), a = .jobj f →
      assocFind f (jkey "confidence") = none →
      dGetV a (jkey "confidence") (jkey "medium") = jkey "medium") ∧
    (∀ r : JVal, r.isObj = false → rejectedName r = .jstr (strJ r)) := by
  refine ⟨fun concept => rfl, fun concept => rfl,
    fun concept qr h => ⟨_, ecr_list_eq concept qr h⟩,
    fun concept ef h => ?_, fun concept a l ha hmem => ?_,
    fun a f ha hn => ?_, fun r hr => ?_⟩
  · rw [processEntry_obj_eq]
    simp [keepEntry, h]
  · have hp := (List.mem_filter.mp hmem).2
    rw [ha] at hp
    simp at hp
  · subst ha
    simp [dGetV, hn]
  · cases r with
    | jnull => rfl
    | jbool b => rfl
    | jint n => rfl
    | jstr sv => rfl
    | jarr l => rfl
    | jobj f => simp [JVal.isObj] at hr

/-- Witness for C10 at concrete inputs. -/
theorem C10_projector_safety_witness :
    extract_concept_reasoning .jnull (.jstr ['A']) = .ok [] ∧
    (∃ out, extract_concept_reasoning (.jarr [wEntry1, .jobj []]) (.jstr ['A']) = .ok out) ∧
    processEntry (.jstr ['A']) (.jobj [(jkey "concept_alignments", .jint 5)]) = .ok none ∧
    rejectedName (.jint 3) = .jstr (strJ (.jint 3)) := by
  refine ⟨C10_projector_safety.1 (.jstr ['A']),
    C10_projector_safety.2.2.1 (.jstr ['A']) [wEntry1, .jobj []] (by decide),
    C10_projector_safety.2.2.2.1 (.jstr ['A']) [(jkey "concept_alignments", .jint 5)]
      (by decide),
    C10_projector_safety.2.2.2.2.2.2 (.jint 3) (by decide)⟩

/-- A binding found on the left of an append is found in the whole. -/
theorem assocFind_append_left (f g : List (JVal × JVal)) (k v : JVal)
    (h : assocFind f k = some v) : assocFind (f ++ g) k = some v := by
  induction f with
  | nil => simp [assocFind] at h
  | cons kv f' ih =>
    simp only [assocFind, List.find?, List.cons_append] at h ⊢
    cases hb : kv.1 == k with
    | true => rw [hb] at h; simpa using h
    | false => rw [hb] at h; exact ih h

/-- Looking up a key absent on the left reaches the appended binding. -/
theorem assocFind_append_absent (f : List (JVal × JVal)) (c d k : JVal)
    (h : assocFind f k = none) :
    assocFind (f ++ [(c, d)]) k = (if c == k then some d else none) := by
  induction f with
  | nil =>
    simp only [List.nil_append, assocFind, List.find?]
    cases hb : c == k <;> simp [hb]
  | cons kv f' ih =>
    simp only [assocFind, List.find?, List.cons_append] at h ⊢
    cases hb : kv.1 == k with
    | true => rw [hb] at h; simp at h
    | false => rw [hb] at h; exact ih h

/-- Unfolding `assocFind` one binding at a time. -/
theorem assocFind_cons (kv : JVal × JVal) (f : List (JVal × JVal)) (k : JVal) :
    assocFind (kv :: f) k = (if kv.1 == k then some kv.2 else assocFind f k) := by
  cases hb : kv.1 == k with
  | true =>
    unfold assocFind
    rw [List.find?_cons_of_pos _ (by simpa using hb)]
    simp [hb]
  | false =>
    unfold assocFind
    rw [List.find?_cons_of_neg _ (by simpa using hb)]
    simp [hb]

/-- After `updateOrAppend f k v` the key `k` maps to `v`. -/
theorem assocFind_updateOrAppend (f : List (JVal × JVal)) (k v : JVal) :
    assocFind (updateOrAppend f k v) k = some v := by
  unfold updateOrAppend
  split
  · rename_i hsome
    induction f with
    | nil => simp [assocFind, List.find?] at hsome
    | cons kv f' ih =>
      rw [assocFind_cons] at hsome
      rw [List.map_cons]
      cases hb : kv.1 == k with
      | true =>
        simp only [hb, if_true]
        rw [assocFind_cons]
        simp [hb]
      | false =>
        simp only [hb, Bool.false_eq_true, if_false] at hsome ⊢
        rw [assocFind_cons]
        simp only [hb, Bool.false_eq_true, if_false]
        exact ih hsome
  · rename_i hnone
    have h0 : assocFind f k = none := by
      cases hx : assocFind f k with
      | none => rfl
      | some w => rw [hx] at hnone; simp at hnone
    rw [assocFind_append_absent f k v k h0]
    simp

/-- `pySetdefault` preserves every existing binding. -/
theorem pySetdefault_preserves (cm cm1 : List (JVal × JVal)) (c d : JVal)
    (h : pySetdefault cm c d = .ok cm1) (k v : JVal)
    (hk : assocFind cm k = some v) : assocFind cm1 k = some v := by
  unfold pySetdefault at h
  split at h
  · split at h
    · cases h; exact hk
    · cases h; exact assocFind_append_left cm [(c, d)] k v hk
  · cases h

/-- `pySetdefault` leaves its key present. -/
theorem pySetdefault_present (cm cm1 : List (JVal × JVal)) (c d : JVal)
    (h : pySetdefault cm c d = .ok cm1) : (assocFind cm1 c).isSome := by
  unfold pySetdefault at h
  split at h
  · split at h
    · rename_i hsome
      cases h
      exact hsome
    · rename_i hnone
      cases h
      have h0 : assocFind cm c = none := by
        cases hx : assocFind cm c with
        | none => rfl
        | some w => rw [hx] at hnone; simp at hnone
      rw [assocFind_append_absent cm c d c h0]
      simp
  · cases h

/-- `pySetdefault` of an absent key binds it to the default. -/
theorem pySetdefault_absent (cm cm1 : List (JVal × JVal)) (c d : JVal)
    (h : pySetdefault cm c d = .ok cm1) (h0 : assocFind cm c = none) :
    assocFind cm1 c = some d := by
  unfold pySetdefault at h
  split at h
  · rw [h0] at h
    simp only [Option.isSome_none, Bool.false_eq_true, if_false] at h
    cases h
    rw [assocFind_append_absent cm c d c h0]
    simp
  · cases h

/-- `ensureConcepts` preserves every existing binding. -/
theorem ensureConcepts_preserves (cl : List JVal) (cm cm2 : List (JVal × JVal))
    (hrun : ensureConcepts cm cl = .ok cm2) (k v : JVal)
    (hk : assocFind cm k = some v) : assocFind cm2 k = some v := by
  induction cl generalizing cm with
  | nil => cases hrun; exact hk
  | cons c cs ih =>
    simp only [ensureConcepts] at hrun
    cases hps : pySetdefault cm c (.jarr []) with
    | error e => rw [hps] at hrun; cases hrun
    | ok cm1 =>
      rw [hps] at hrun
      exact ih cm1 hrun (pySetdefault_preserves cm cm1 c (.jarr []) hps k v hk)

/-- After `ensureConcepts` every supplied concept is a key. -/
theorem ensureConcepts_present (cl : List JVal) (cm cm2 : List (JVal × JVal))
    (hrun : ensureConcepts cm cl = .ok cm2) (c : JVal) (hc : c ∈ cl) :
    (assocFind cm2 c).isSome := by
  induction cl generalizing cm with
  | nil => simp at hc
  | cons c0 cs ih =>
    simp only [ensureConcepts] at hrun
    cases hps : pySetdefault cm c0 (.jarr []) with
    | error e => rw [hps] at hrun; cases hrun
    | ok cm1 =>
      rw [hps] at hrun
      rcases List.mem_cons.mp hc with h | h
      · subst h
        have h1 := pySetdefault_present cm cm1 c (.jarr []) hps
        cases hx : assocFind cm1 c with
        | none => rw [hx] at h1; simp at h1
        | some w =>
          rw [ensureConcepts_preserves cs cm1 cm2 hrun c w hx]
          simp
      · exact ih cm1 hrun h

/-- After `ensureConcepts` a concept the original map omitted is bound
to the empty list. -/
theorem ensureConcepts_default (cl : List JVal) (cm cm2 : List (JVal × JVal))
    (hrun : ensureConcepts cm cl = .ok cm2) (c : JVal) (hc : c ∈ cl)
    (h0 : assocFind cm c = none) : assocFind cm2 c = some (.jarr []) := by
  induction cl generalizing cm with
  | nil => simp at hc
  | cons c0 cs ih =>
    simp only [ensureConcepts] at hrun
    cases hps : pySetdefault cm c0 (.jarr []) with
    | error e => rw [hps] at hrun; cases hrun
    | ok cm1 =>
      rw [hps] at hrun
      rcases List.mem_cons.mp hc with h | h
      · subst h
        exact ensureConcepts_preserves cs cm1 cm2 hrun c (.jarr [])
          (pySetdefault_absent cm cm1 c (.jarr []) hps h0)
      · cases hx : assocFind cm1 c with
        | none => exact ih cm1 hrun h hx
        | some w =>
          have hw : w = .jarr [] := by
            unfold pySetdefault at hps
            split at hps
            · split at hps
              · cases hps
                rw [h0] at hx
                cases hx
              · cases hps
                rw [assocFind_append_absent cm c0 (.jarr []) c h0] at hx
                split at hx
                · cases hx; rfl
                · cases hx
            · cases hps
          subst hw
          exact ensureConcepts_preserves cs cm1 cm2 hrun c (.jarr []) hx

/-- C2: if `analyze_question_paper` returns without raising, its
concept map holds every supplied concept as a key, bound to the empty
list whenever the decoded response's concept map omitted that
concept. -/
theorem C2_concept_map_complete (raw : PyStr) (concepts : List JVal)
    (qpaF : List (JVal × JVal))
    (hok : analyze_question_paper raw (.jarr concepts) = .ok qpaF) :
    ∀ c ∈ concepts, ∃ cm2, assocFind qpaF (jkey "concept_map") = some (.jobj cm2) ∧
      (assocFind cm2 c).isSome ∧
      (∀ (v : JVal) (cm0 : List (JVal × JVal)),
        jsonLoads (extractResponseText raw) = some v →
        pyIndex v (jkey "concept_map") = .ok (.jobj cm0) →
        assocFind cm0 c = none → assocFind cm2 c = some (.jarr [])) := by
  intro c hc
  have hok' : aqpInner raw concepts = .ok qpaF := by
    simp only [analyze_question_paper, pyIter] at hok
    cases hin : aqpInner raw concepts with
    | error e => rw [hin] at hok; cases hok
    | ok r => rw [hin] at hok; cases hok; rfl
  unfold aqpInner at hok'
  cases hload : jsonLoads (extractResponseText raw) with
  | none => rw [hload] at hok'; cases hok'
  | some v =>
    simp only [hload] at hok'
    cases hcont : pyContains v (jkey "concept_map") with
    | error e => simp only [hcont] at hok'; exact Except.noConfusion hok'
    | ok hasCM =>
      simp only [hcont] at hok'
      cases hasCM with
      | false => simp at hok'
      | true =>
        simp only [Bool.not_true, Bool.false_eq_true, if_false] at hok'
        cases hidx : pyIndex v (jkey "concept_map") with
        | error e => simp only [hidx] at hok'; exact Except.noConfusion hok'
        | ok cmv =>
          simp only [hidx] at hok'
          cases cmv with
          | jobj cmFields =>
            cases v with
            | jobj vf =>
              cases hens : ensureConcepts cmFields concepts with
              | error e => simp only [hens] at hok'; exact Except.noConfusion hok'
              | ok cm2 =>
                simp only [hens] at hok'
                cases hok'
                refine ⟨cm2, assocFind_updateOrAppend _ _ _,
                  ensureConcepts_present concepts cmFields cm2 hens c hc,
                  fun v' cm0 hload' hidx' h0 => ?_⟩
                cases hload'
                rw [hidx] at hidx'
                cases hidx'
                exact ensureConcepts_default concepts cmFields cm2 hens c hc h0
            | jnull => cases hok'
            | jbool b => cases hok'
            | jint n => cases hok'
            | jstr sv => cases hok'
            | jarr l => cases hok'
          | jnull => cases hok'
          | jbool b => cases hok'
          | jint n => cases hok'
          | jstr sv => cases hok'
          | jarr l => cases hok'

/-- Witness for C2: concept B is absent from the model's map and ends
bound to the empty list. -/
theorem C2_concept_map_complete_witness :
    ∃ cm2, assocFind
        [(jkey "concept_map",
          JVal.jobj [(JVal.jstr ['A'], JVal.jarr [JVal.jint 1]), (JVal.jstr ['B'], JVal.jarr [])]),
         (jkey "question_reasoning", JVal.jarr []),
         (jkey "evaluation_notes", JVal.jarr [])] (jkey "concept_map") = some (.jobj cm2) ∧
      (assocFind cm2 (.jstr ['B'])).isSome ∧
      (∀ (v : JVal) (cm0 : List (JVal × JVal)),
        jsonLoads (extractResponseText rawMapW) = some v →
        pyIndex v (jkey "concept_map") = .ok (.jobj cm0) →
        assocFind cm0 (.jstr ['B']) = none →
        assocFind cm2 (.jstr ['B']) = some (.jarr [])) :=
  C2_concept_map_complete rawMapW [.jstr ['A'], .jstr ['B']] _ rfl (.jstr ['B'])
    (by decide)

/-- A key matched by `List.any` is found by `assocFind`. -/
theorem assocFind_isSome_of_any (f : List (JVal × JVal)) (k : JVal)
    (h : f.any (fun kv => kv.1 == k) = true) : (assocFind f k).isSome := by
  induction f with
  | nil => simp at h
  | cons kv f' ih =>
    rw [assocFind_cons]
    cases hb : kv.1 == k with
    | true => simp
    | false =>
      simp only [hb, Bool.false_eq_true, if_false]
      apply ih
      simpa [hb] using h

/-- A mapping response that decodes without a dict-shaped
`concept_map` (or does not decode at all) makes the guarded body of
`analyze_question_paper` raise. -/
theorem aqpInner_error_of_bad (raw : PyStr) (cl : List JVal)
    (hbad : ∀ v : JVal, jsonLoads (extractResponseText raw) = some v →
      hasDictConceptMap v = false) :
    ∃ e, aqpInner raw cl = .error e := by
  unfold aqpInner
  cases hload : jsonLoads (extractResponseText raw) with
  | none => exact ⟨_, rfl⟩
  | some v =>
    have hb := hbad v hload
    cases v with
    | jobj f =>
      have hcont : pyContains (.jobj f) (jkey "concept_map") =
          .ok (f.any fun kv => kv.1 == jkey "concept_map") := rfl
      cases hany : f.any fun kv => kv.1 == jkey "concept_map" with
      | true =>
        rw [hany] at hcont
        have hsome := assocFind_isSome_of_any f (jkey "concept_map") hany
        obtain ⟨w, hw⟩ := Option.isSome_iff_exists.mp hsome
        have hidx : pyIndex (.jobj f) (jkey "concept_map") =
            (match assocFind f (jkey "concept_map") with
             | some w => Except.ok w
             | none => Except.error ("KeyError").data) := rfl
        rw [hw] at hidx
        simp only [hcont, hidx, Bool.not_true, Bool.false_eq_true, if_false]
        cases w with
        | jobj g => simp [hasDictConceptMap, hw] at hb
        | jnull => exact ⟨_, rfl⟩
        | jbool b => exact ⟨_, rfl⟩
        | jint n => exact ⟨_, rfl⟩
        | jstr sv => exact ⟨_, rfl⟩
        | jarr l => exact ⟨_, rfl⟩
      | false =>
        rw [hany] at hcont
        simp only [hcont]
        exact ⟨_, rfl⟩
    | jarr l =>
      have hcont : pyContains (.jarr l) (jkey "concept_map") =
          .ok (l.any fun y => y == jkey "concept_map") := rfl
      cases hany : l.any fun y => y == jkey "concept_map" with
      | true =>
        rw [hany] at hcont
        simp only [hcont, Bool.not_true, Bool.false_eq_true, if_false]
        exact ⟨_, rfl⟩
      | false =>
        rw [hany] at hcont
        simp only [hcont]
        exact ⟨_, rfl⟩
    | jstr sv =>
      have hcont : pyContains (.jstr sv) (jkey "concept_map") =
          .ok (occursB ("concept_map").data sv) := rfl
      cases hocc : occursB ("concept_map").data sv with
      | true =>
        rw [hocc] at hcont
        simp only [hcont, Bool.not_true, Bool.false_eq_true, if_false]
        exact ⟨_, rfl⟩
      | false =>
        rw [hocc] at hcont
        simp only [hcont]
        exact ⟨_, rfl⟩
    | jnull => exact ⟨_, rfl⟩
    | jbool b => exact ⟨_, rfl⟩
    | jint n => exact ⟨_, rfl⟩

/-- C4: when the mapping response cannot be decoded as JSON or lacks a
dict-shaped concept map, `analyze_question_paper` raises an error
whose message names the stage, `analyze_all_concepts` does not catch
it, and the run aborts with that same error (so no partial concept
records are returned). -/
theorem C4_mapping_stage_hard_fail (r : Responses) (conceptsV : JVal) (cl : List JVal)
    (hext : extract_concepts r.conceptsResp = .ok conceptsV)
    (hiter : pyIter conceptsV = .ok cl)
    (hbad : ∀ v : JVal, jsonLoads (extractResponseText r.mappingResp) = some v →
      hasDictConceptMap v = false) :
    ∃ e : List Char, analyze_question_paper r.mappingResp conceptsV = .error e ∧
      analyze_all_concepts r = .error e ∧
      ("Error analyzing question paper: ").data <+: e := by
  obtain ⟨e0, he0⟩ := aqpInner_error_of_bad r.mappingResp cl hbad
  have haqp : analyze_question_paper r.mappingResp conceptsV =
      .error (("Error analyzing question paper: ").data ++ e0) := by
    unfold analyze_question_paper
    simp only [hiter, he0]
  have hall : analyze_all_concepts r =
      .error (("Error analyzing question paper: ").data ++ e0) := by
    unfold analyze_all_concepts
    simp only [hext, haqp]
  exact ⟨_, haqp, hall, List.prefix_append _ _⟩

/-- Witness for C4 at a non-JSON mapping response. -/
theorem C4_mapping_stage_hard_fail_witness :
    ∃ e : List Char,
      analyze_question_paper rBadW.mappingResp (.jarr [.jstr ['A']]) = .error e ∧
      analyze_all_concepts rBadW = .error e ∧
      ("Error analyzing question paper: ").data <+: e :=
  C4_mapping_stage_hard_fail rBadW (.jarr [.jstr ['A']]) [.jstr ['A']] rfl rfl
    (fun v h => by
      rw [show jsonLoads (extractResponseText rBadW.mappingResp) = none from by decide] at h
      cases h)

/-- Membership in a successful `mapMExcept` run comes from a
successful application to a member of the input. -/
theorem mapMExcept_member {α β ε : Type} (f : α → Except ε β) (cl : List α)
    (results : List β) (h : mapMExcept f cl = .ok results) :
    ∀ rec ∈ results, ∃ c ∈ cl, f c = .ok rec := by
  induction cl generalizing results with
  | nil =>
    cases h
    intro rec hr
    simp at hr
  | cons c cs ih =>
    simp only [mapMExcept] at h
    cases hf : f c with
    | error e => rw [hf] at h; cases h
    | ok y =>
      rw [hf] at h
      cases hrest : mapMExcept f cs with
      | error e => rw [hrest] at h; cases h
      | ok ys =>
        rw [hrest] at h
        cases h
        intro rec hr
        rcases List.mem_cons.mp hr with h1 | h1
        · exact ⟨c, List.mem_cons_self c cs, h1 ▸ hf⟩
        · obtain ⟨c', hc', hfc'⟩ := ih ys hrest rec h1
          exact ⟨c', List.mem_cons_of_mem c hc', hfc'⟩

/-- Decomposition of a successful `analyze_all_concepts` run into its
stages. -/
theorem analyze_all_decomp (r : Responses) (results : List ConceptRecord)
    (hok : analyze_all_concepts r = .ok results) :
    ∃ (conceptsV : JVal) (qpaFields : List (JVal × JVal))
      (cmFields : List (JVal × JVal)) (cl : List JVal),
      extract_concepts r.conceptsResp = .ok conceptsV ∧
      analyze_question_paper r.mappingResp conceptsV = .ok qpaFields ∧
      (assocFind qpaFields (jkey "concept_map")).getD (.jobj []) = .jobj cmFields ∧
      pyIter conceptsV = .ok cl ∧
      mapMExcept (processConcept r.perfResp cmFields
        ((assocFind qpaFields (jkey "question_reasoning")).getD (.jarr []))) cl =
        .ok results := by
  unfold analyze_all_concepts at hok
  cases hext : extract_concepts r.conceptsResp with
  | error e => rw [hext] at hok; cases hok
  | ok conceptsV =>
    simp only [hext] at hok
    cases haqp : analyze_question_paper r.mappingResp conceptsV with
    | error e => rw [haqp] at hok; cases hok
    | ok qpaFields =>
      simp only [haqp] at hok
      cases hlen : pyLen conceptsV with
      | error e => rw [hlen] at hok; cases hok
      | ok n =>
        simp only [hlen] at hok
        cases hiti : pyIter conceptsV with
        | error e => rw [hiti] at hok; cases hok
        | ok cl =>
          simp only [hiti] at hok
          cases hcq : (assocFind qpaFields (jkey "concept_map")).getD (.jobj []) with
          | jobj cmFields =>
            rw [hcq] at hok
            exact ⟨conceptsV, qpaFields, cmFields, cl, rfl, haqp, hcq, hiti, hok⟩
          | jnull => rw [hcq] at hok; cases hok
          | jbool b => rw [hcq] at hok; cases hok
          | jint n2 => rw [hcq] at hok; cases hok
          | jstr sv => rw [hcq] at hok; cases hok
          | jarr l => rw [hcq] at hok; cases hok

/-- A successful per-concept step fixes the record's counts: the
mistakes count is the length of the coerced mistakes list, the tested
count the length of the coerced question-number list the concept map
resolves. -/
theorem processConcept_ok (perf : JVal → List JVal → PyStr)
    (cmFields : List (JVal × JVal)) (qr concept : JVal) (rec : ConceptRecord)
    (h : processConcept perf cmFields qr concept = .ok rec) :
    rec.concept = concept ∧
    rec.mistakes_count = rec.mistake_questions.length ∧
    ∃ (rawNums : JVal) (rl : List JVal),
      pyDictGet cmFields concept (.jarr []) = .ok rawNums ∧
      pyIter rawNums = .ok rl ∧ rec.tested_count = (rl.map coerceId).length := by
  unfold processConcept at h
  cases hdg : pyDictGet cmFields concept (.jarr []) with
  | error e => rw [hdg] at h; cases h
  | ok rawNums =>
    simp only [hdg] at h
    cases hit : pyIter rawNums with
    | error e => rw [hit] at h; cases h
    | ok rawList =>
      simp only [hit] at h
      cases hecr : extract_concept_reasoning qr concept with
      | error e => rw [hecr] at h; cases h
      | ok cr =>
        simp only [hecr] at h
        by_cases hemp : (rawList.map coerceId).isEmpty
        · rw [if_pos hemp] at h
          cases h
          refine ⟨rfl, rfl, rawNums, rawList, rfl, hit, ?_⟩
          simp only [List.isEmpty_iff] at hemp
          simp [hemp]
        · rw [if_neg hemp] at h
          cases hasp : analyze_student_performance
              (perf concept (rawList.map coerceId)) concept (rawList.map coerceId) with
          | error e => rw [hasp] at h; cases h
          | ok performance =>
            simp only [hasp] at h
            cases hml : pyIter ((assocFind performance (jkey "mistakes")).getD (.jarr [])) with
            | error e => rw [hml] at h; cases h
            | ok mlist =>
              simp only [hml] at h
              cases hdet : pyIndex (.jobj performance) (jkey "details") with
              | error e => rw [hdet] at h; cases h
              | ok details =>
                simp only [hdet] at h
                cases h
                exact ⟨rfl, by simp, rawNums, rawList, rfl, hit, rfl⟩

/-- A per-concept step whose coerced question-number list is empty
yields exactly the zero record (up to its concept reasoning). -/
theorem processConcept_empty (perf : JVal → List JVal → PyStr)
    (cmFields : List (JVal × JVal)) (qr concept : JVal) (rec : ConceptRecord)
    (h : processConcept perf cmFields qr concept = .ok rec)
    (rawNums : JVal) (rl : List JVal)
    (hdg : pyDictGet cmFields concept (.jarr []) = .ok rawNums)
    (hit : pyIter rawNums = .ok rl) (hemp : rl.map coerceId = []) :
    rec.tested_count = 0 ∧ rec.mistakes_count = 0 ∧ rec.mistake_questions = [] ∧
    rec.details = .jobj [] ∧ rec.performance_reasoning = .jarr [] ∧
    rec.performance_notes = .jarr [] := by
  unfold processConcept at h
  simp only [hdg, hit] at h
  cases hecr : extract_concept_reasoning qr concept with
  | error e => rw [hecr] at h; cases h
  | ok cr =>
    simp only [hecr] at h
    rw [if_pos (by simp [hemp])] at h
    cases h
    exact ⟨rfl, rfl, rfl, rfl, rfl, rfl⟩

/-- A per-concept step never reads the performance oracle when the
coerced question-number list is empty. -/
theorem processConcept_oracle_free (perf1 perf2 : JVal → List JVal → PyStr)
    (cmFields : List (JVal × JVal)) (qr concept : JVal) (rawNums : JVal)
    (rl : List JVal)
    (hdg : pyDictGet cmFields concept (.jarr []) = .ok rawNums)
    (hit : pyIter rawNums = .ok rl) (hemp : rl.map coerceId = []) :
    processConcept perf1 cmFields qr concept =
      processConcept perf2 cmFields qr concept := by
  unfold processConcept
  simp only [hdg, hit]
  cases hecr : extract_concept_reasoning qr concept with
  | error e => rfl
  | ok cr => simp [hemp]

/-- `resolvedRawNums` recomputes, from the same responses, exactly the
lookup-and-iterate the run performs. -/
theorem resolvedRawNums_run (r : Responses) (conceptsV : JVal)
    (qpaFields cmFields : List (JVal × JVal)) (c : JVal)
    (hext : extract_concepts r.conceptsResp = .ok conceptsV)
    (haqp : analyze_question_paper r.mappingResp conceptsV = .ok qpaFields)
    (hcq : (assocFind qpaFields (jkey "concept_map")).getD (.jobj []) = .jobj cmFields) :
    resolvedRawNums r c =
      (match pyDictGet cmFields c (.jarr []) with
       | .error e => Except.error e
       | .ok rawNums => pyIter rawNums) := by
  unfold resolvedRawNums
  simp only [hext, haqp, hcq]

/-- C1: in every record a successful `analyze_all_concepts` run
returns, the mistakes count equals the length of the recorded mistake
questions and the tested count equals the length of the coerced
question-number list resolved for that concept from the concept map —
in the skipped and the evaluated branch alike, for every possible
model response. -/
theorem C1_counts_by_construction (r : Responses) (results : List ConceptRecord)
    (hok : analyze_all_concepts r = .ok results) :
    ∀ rec ∈ results,
      rec.mistakes_count = rec.mistake_questions.length ∧
      ∃ rl : List JVal, resolvedRawNums r rec.concept = .ok rl ∧
        rec.tested_count = (rl.map coerceId).length := by
  obtain ⟨conceptsV, qpaFields, cmFields, cl, hext, haqp, hcq, hiti, hmap⟩ :=
    analyze_all_decomp r results hok
  intro rec hrec
  obtain ⟨c, hcmem, hpc⟩ := mapMExcept_member _ cl results hmap rec hrec
  obtain ⟨hconc, hmc, rawNums, rl, hdg, hit, htc⟩ :=
    processConcept_ok r.perfResp cmFields _ c rec hpc
  refine ⟨hmc, rl, ?_, htc⟩
  rw [resolvedRawNums_run r conceptsV qpaFields cmFields rec.concept hext haqp hcq]
  rw [hconc]
  simp only [hdg]
  exact hit

/-- Witness for C1 at a concrete run. -/
theorem C1_counts_by_construction_witness :
    recC8.mistakes_count = recC8.mistake_questions.length ∧
    ∃ rl : List JVal, resolvedRawNums cexC8 recC8.concept = .ok rl ∧
      recC8.tested_count = (rl.map coerceId).length :=
  C1_counts_by_construction cexC8 [recC8] rfl recC8 (by simp)

/-- C3: a concept whose resolved (coerced) question-number list is
empty yields the zero record: tested and mistakes counts 0, empty
mistake questions, empty details, empty performance reasoning and
notes; and the per-concept step never consults the
performance-evaluation oracle for such a concept. -/
theorem C3_empty_concept_skipped :
    (∀ (r : Responses) (results : List ConceptRecord) (rec : ConceptRecord)
      (rl : List JVal),
      analyze_all_concepts r = .ok results → rec ∈ results →
      resolvedRawNums r rec.concept = .ok rl → rl.map coerceId = [] →
      rec.tested_count = 0 ∧ rec.mistakes_count = 0 ∧ rec.mistake_questions = [] ∧
      rec.details = .jobj [] ∧ rec.performance_reasoning = .jarr [] ∧
      rec.performance_notes = .jarr []) ∧
    (∀ (perf1 perf2 : JVal → List JVal → PyStr) (cmFields : List (JVal × JVal))
      (qr concept rawNums : JVal) (rl : List JVal),
      pyDictGet cmFields concept (.jarr []) = .ok rawNums →
      pyIter rawNums = .ok rl → rl.map coerceId = [] →
      processConcept perf1 cmFields qr concept =
        processConcept perf2 cmFields qr concept) := by
  constructor
  · intro r results rec rl hok hrec hres hemp
    obtain ⟨conceptsV, qpaFields, cmFields, cl, hext, haqp, hcq, hiti, hmap⟩ :=
      analyze_all_decomp r results hok
    obtain ⟨c, hcmem, hpc⟩ := mapMExcept_member _ cl results hmap rec hrec
    obtain ⟨hconc, _, rawNums, rl0, hdg, hit, _⟩ :=
      processConcept_ok r.perfResp cmFields _ c rec hpc
    rw [resolvedRawNums_run r conceptsV qpaFields cmFields rec.concept hext haqp hcq,
      hconc] at hres
    simp only [hdg] at hres
    rw [hit] at hres
    cases hres
    exact processConcept_empty r.perfResp cmFields _ c rec hpc rawNums rl hdg hit hemp
  · intro perf1 perf2 cmFields qr concept rawNums rl hdg hit hemp
    exact processConcept_oracle_free perf1 perf2 cmFields qr concept rawNums rl hdg hit hemp

/-- Witness for C3 on the scenario-B run: concept B resolves no
questions and gets the zero record, and the step is oracle-free. -/
theorem C3_empty_concept_skipped_witness :
    (recC3B.tested_count = 0 ∧ recC3B.mistakes_count = 0 ∧
      recC3B.mistake_questions = [] ∧ recC3B.details = .jobj [] ∧
      recC3B.performance_reasoning = .jarr [] ∧
      recC3B.performance_notes = .jarr []) ∧
    processConcept (fun _ _ => ('x' :: [])) [(.jstr ['B'], .jarr [])]
        (.jarr []) (.jstr ['B']) =
      processConcept (fun _ _ => ('y' :: [])) [(.jstr ['B'], .jarr [])]
        (.jarr []) (.jstr ['B']) :=
  ⟨C3_empty_concept_skipped.1 c3wR [recC8W, recC3B] recC3B [] rfl (by simp) rfl rfl,
   C3_empty_concept_skipped.2 (fun _ _ => ('x' :: [])) (fun _ _ => ('y' :: []))
     [(.jstr ['B'], .jarr [])] (.jarr []) (.jstr ['B']) (.jarr []) [] rfl rfl rfl⟩

/-- When the performance response's mistakes list is no longer than
the concept's coerced question-number list, the record's counts are
ordered. -/
theorem processConcept_bound (perf : JVal → List JVal → PyStr)
    (cmFields : List (JVal × JVal)) (qr concept : JVal) (rec : ConceptRecord)
    (h : processConcept perf cmFields qr concept = .ok rec)
    (hbound : ∀ (qn : List JVal) (perfd : List (JVal × JVal)) (ml : List JVal),
      qn ≠ [] →
      analyze_student_performance (perf concept qn) concept qn = .ok perfd →
      pyIter ((assocFind perfd (jkey "mistakes")).getD (.jarr [])) = .ok ml →
      ml.length ≤ qn.length) :
    rec.mistakes_count ≤ rec.tested_count := by
  unfold processConcept at h
  cases hdg : pyDictGet cmFields concept (.jarr []) with
  | error e => rw [hdg] at h; cases h
  | ok rawNums =>
    simp only [hdg] at h
    cases hit : pyIter rawNums with
    | error e => rw [hit] at h; cases h
    | ok rawList =>
      simp only [hit] at h
      cases hecr : extract_concept_reasoning qr concept with
      | error e => rw [hecr] at h; cases h
      | ok cr =>
        simp only [hecr] at h
        by_cases hemp : (rawList.map coerceId).isEmpty
        · rw [if_pos hemp] at h
          cases h
          exact Nat.le_refl 0
        · rw [if_neg hemp] at h
          cases hasp : analyze_student_performance
              (perf concept (rawList.map coerceId)) concept (rawList.map coerceId) with
          | error e => rw [hasp] at h; cases h
          | ok performance =>
            simp only [hasp] at h
            cases hml : pyIter ((assocFind performance (jkey "mistakes")).getD (.jarr [])) with
            | error e => rw [hml] at h; cases h
            | ok mlist =>
              simp only [hml] at h
              cases hdet : pyIndex (.jobj performance) (jkey "details") with
              | error e => rw [hdet] at h; cases h
              | ok details =>
                simp only [hdet] at h
                cases h
                have hne : rawList.map coerceId ≠ [] := by
                  intro hx
                  rw [hx] at hemp
                  simp at hemp
                have := hbound (rawList.map coerceId) performance mlist hne hasp hml
                simpa using this

/-- C8 counterexample: the code does not clamp the model's mistakes
list, so a run can return a record whose mistakes count exceeds its
tested count. -/
theorem C8_counterexample_excess_mistakes :
    analyze_all_concepts cexC8 = .ok [recC8] ∧
    recC8 ∈ [recC8] ∧ ¬(recC8.mistakes_count ≤ recC8.tested_count) :=
  ⟨rfl, by simp, by decide⟩

/-- C8 (amended): every record satisfies 0 ≤ mistakes_count, and
mistakes_count ≤ tested_count holds whenever the model's decoded
mistakes list for each evaluated concept is no longer than that
concept's coerced question-number list. -/
theorem C8_mistakes_bounded_amended (r : Responses) (results : List ConceptRecord)
    (hok : analyze_all_concepts r = .ok results)
    (hbound : ∀ (c : JVal) (qn : List JVal) (perfd : List (JVal × JVal))
      (ml : List JVal), qn ≠ [] →
      analyze_student_performance (r.perfResp c qn) c qn = .ok perfd →
      pyIter ((assocFind perfd (jkey "mistakes")).getD (.jarr [])) = .ok ml →
      ml.length ≤ qn.length) :
    ∀ rec ∈ results, 0 ≤ rec.mistakes_count ∧
      rec.mistakes_count ≤ rec.tested_count := by
  obtain ⟨conceptsV, qpaFields, cmFields, cl, hext, haqp, hcq, hiti, hmap⟩ :=
    analyze_all_decomp r results hok
  intro rec hrec
  obtain ⟨c, hcmem, hpc⟩ := mapMExcept_member _ cl results hmap rec hrec
  exact ⟨Nat.zero_le _,
    processConcept_bound r.perfResp cmFields _ c rec hpc (fun qn => hbound c qn)⟩

/-- Witness for the amended C8 at a run whose performance responses
report no mistakes. -/
theorem C8_mistakes_bounded_amended_witness :
    analyze_all_concepts c8wR = .ok [recC8W] ∧
    (∀ rec ∈ [recC8W], 0 ≤ rec.mistakes_count ∧
      rec.mistakes_count ≤ rec.tested_count) := by
  refine ⟨rfl, C8_mistakes_bounded_amended c8wR [recC8W] rfl ?_⟩
  intro c qn perfd ml hne hasp hml
  have hfix : analyze_student_performance (c8wR.perfResp c qn) c qn =
      .ok perfEmptyFields := by
    unfold analyze_student_performance
    rw [if_neg (by simp [List.isEmpty_iff, hne])]
    rfl
  rw [hfix] at hasp
  cases hasp
  have hml' : pyIter ((assocFind perfEmptyFields (jkey "mistakes")).getD (.jarr [])) =
      .ok ([] : List JVal) := rfl
  rw [hml'] at hml
  cases hml
  exact Nat.zero_le _

/-- An occurrence is no longer than its host. -/
theorem occurs_length_le (l s : PyStr) (h : Occurs l s) : l.length ≤ s.length := by
  obtain ⟨a, b, rfl⟩ := h
  simp [List.length_append]
  omega

/-- Soundness of `splitFirst`: a hit decomposes the string. -/
theorem splitFirst_sound (sep : PyStr) :
    ∀ (s pre post : PyStr), splitFirst sep s = some (pre, post) →
      s = pre ++ sep ++ post := by
  intro s
  induction s with
  | nil => intro pre post h; simp [splitFirst] at h
  | cons c rest ih =>
    intro pre post h
    unfold splitFirst at h
    split at h
    · rename_i hp
      obtain ⟨t, ht⟩ := List.isPrefixOf_iff_prefix.mp hp
      cases h
      rw [List.nil_append, ← ht, List.drop_left]
    · cases hs : splitFirst sep rest with
      | none => rw [hs] at h; cases h
      | some pp =>
        obtain ⟨pre', post'⟩ := pp
        rw [hs] at h
        cases h
        rw [List.cons_append, List.cons_append, ← ih _ _ hs]

/-- An occurrence makes `splitFirst` hit. -/
theorem splitFirst_isSome_of_occurs (sep : PyStr) (hne : sep ≠ []) :
    ∀ (a b s : PyStr), s = a ++ sep ++ b → (splitFirst sep s).isSome := by
  intro a
  induction a with
  | nil =>
    intro b s hs
    obtain ⟨c, sep', rfl⟩ : ∃ c sep', sep = c :: sep' := by
      cases sep with
      | nil => exact absurd rfl hne
      | cons c sep' => exact ⟨c, sep', rfl⟩
    subst hs
    rw [List.nil_append, List.cons_append]
    unfold splitFirst
    rw [if_pos (List.isPrefixOf_iff_prefix.mpr ⟨b, by simp⟩)]
    simp
  | cons c a' ih =>
    intro b s hs
    subst hs
    rw [List.cons_append, List.cons_append]
    unfold splitFirst
    split
    · simp
    · cases hsp : splitFirst sep (a' ++ sep ++ b) with
      | none =>
        have := ih b (a' ++ sep ++ b) rfl
        rw [hsp] at this
        simp at this
      | some pp =>
        obtain ⟨x, y⟩ := pp
        simp [hsp]

/-- Without an occurrence `splitFirst` misses. -/
theorem splitFirst_none_of_not_occurs (sep s : PyStr)
    (h : ¬ Occurs sep s) : splitFirst sep s = none := by
  cases hs : splitFirst sep s with
  | none => rfl
  | some pp =>
    obtain ⟨pre, post⟩ := pp
    exact absurd ⟨pre, post, splitFirst_sound sep s pre post hs⟩ h

/-- `splitFirst` at an immediate separator. -/
theorem splitFirst_self_start (sep b : PyStr) (hne : sep ≠ []) :
    splitFirst sep (sep ++ b) = some ([], b) := by
  obtain ⟨c, sep', rfl⟩ : ∃ c sep', sep = c :: sep' := by
    cases sep with
    | nil => exact absurd rfl hne
    | cons c sep' => exact ⟨c, sep', rfl⟩
  rw [List.cons_append]
  unfold splitFirst
  rw [if_pos (List.isPrefixOf_iff_prefix.mpr ⟨b, by simp⟩)]
  have hre : (c :: (sep' ++ b)) = (c :: sep') ++ b := by simp
  rw [hre, List.drop_left]

/-- Splitting an occurrence through an append: the needle lies in the
left part, in the right part, or spans the boundary. -/
theorem occurs_append_cases (l x y : PyStr) (h : Occurs l (x ++ y)) :
    Occurs l x ∨ Occurs l y ∨
      ∃ l₁ l₂ u w, l = l₁ ++ l₂ ∧ l₁ ≠ [] ∧ l₂ ≠ [] ∧ x = u ++ l₁ ∧ y = l₂ ++ w := by
  obtain ⟨a, b, hab⟩ := h
  have heq : x ++ y = a ++ (l ++ b) := by rw [hab, List.append_assoc]
  rcases List.append_eq_append_iff.mp heq with ⟨w, hw1, hw2⟩ | ⟨w, hw1, hw2⟩
  · exact Or.inr (Or.inl ⟨w, b, by rw [hw2, List.append_assoc]⟩)
  · rcases List.append_eq_append_iff.mp hw2 with ⟨u, hu1, hu2⟩ | ⟨u, hu1, hu2⟩
    · exact Or.inl ⟨a, u, by rw [hw1, hu1, List.append_assoc]⟩
    · rcases eq_or_ne w [] with hwnil | hwne
      · subst hwnil
        rw [List.nil_append] at hu1
        exact Or.inr (Or.inl ⟨[], b, by rw [hu2, hu1, List.nil_append]⟩)
      · rcases eq_or_ne u [] with hunil | hune
        · subst hunil
          rw [List.append_nil] at hu1
          exact Or.inl ⟨a, [], by rw [hw1, hu1]; simp⟩
        · exact Or.inr (Or.inr ⟨w, u, a, b, hu1, hwne, hune, hw1, hu2⟩)

/-- Everything in the fence marker is a backtick. -/
theorem mem_fenceM_eq_btick (x : Char) (h : x ∈ fenceM) : x = btick := by
  simp only [fenceM, List.mem_cons, List.not_mem_nil, or_false] at h
  rcases h with h | h | h <;> exact h

/-- The first fence hit in `a ++ fenceM ++ b` is exactly the marker,
when `a` holds no fence and does not end in a backtick. -/
theorem splitFirst_fence_first (b : PyStr) :
    ∀ (a : PyStr), ¬ Occurs fenceM a → a.getLast? ≠ some btick →
    splitFirst fenceM (a ++ (fenceM ++ b)) = some (a, b) := by
  intro a
  induction a with
  | nil =>
    intro _ _
    rw [List.nil_append]
    exact splitFirst_self_start fenceM b (by simp [fenceM])
  | cons c a' ih =>
    intro hocc hlast
    rw [List.cons_append]
    unfold splitFirst
    split
    · rename_i hp
      exfalso
      obtain ⟨t, ht⟩ := List.isPrefixOf_iff_prefix.mp hp
      have heq : (c :: a') ++ (fenceM ++ b) = fenceM ++ t := by
        rw [List.cons_append, ← ht]
      rcases List.append_eq_append_iff.mp heq with ⟨w, hw1, hw2⟩ | ⟨w, hw1, hw2⟩
      · cases hgl : (c :: a').getLast? with
        | none => simp at hgl
        | some x =>
          have hx2 : x ∈ (c :: a') := List.mem_of_mem_getLast? hgl
          have hxf : x ∈ fenceM := by
            rw [hw1]
            exact List.mem_append_left w hx2
          rw [mem_fenceM_eq_btick x hxf] at hgl
          exact hlast hgl
      · exact hocc ⟨[], w, by rw [hw1, List.nil_append]⟩
    · have hocc' : ¬ Occurs fenceM a' := by
        intro hx
        obtain ⟨u, v, huv⟩ := hx
        exact hocc ⟨c :: u, v, by rw [huv]; simp⟩
      have hlast' : a'.getLast? ≠ some btick := by
        cases a' with
        | nil => simp
        | cons d a'' =>
          intro hgl
          exact hlast (by rw [List.getLast?_cons_cons]; exact hgl)
      rw [ih hocc' hlast']

/-- Newline-wrapping a fence-free payload stays fence-free. -/
theorem not_occurs_fence_nl_wrap (p : PyStr) (h : ¬ Occurs fenceM p) :
    ¬ Occurs fenceM ('\n' :: (p ++ ['\n'])) := by
  intro hocc
  have hocc' : Occurs fenceM (['\n'] ++ (p ++ ['\n'])) := by simpa using hocc
  rcases occurs_append_cases _ _ _ hocc' with h1 | h1 |
    ⟨l₁, l₂, u, w, hl, hl1, hl2, hx, hy⟩
  · exact absurd (occurs_length_le _ _ h1) (by simp [fenceM])
  · rcases occurs_append_cases _ _ _ h1 with h2 | h2 |
      ⟨l₁, l₂, u, w, hl, hl1, hl2, hx, hy⟩
    · exact h h2
    · exact absurd (occurs_length_le _ _ h2) (by simp [fenceM])
    · have hl2' : l₂ = ['\n'] := by
        cases l₂ with
        | nil => exact absurd rfl hl2
        | cons d l₂' =>
          rw [List.cons_append] at hy
          injection hy with h1 h2
          have h3 : l₂' = [] := (List.append_eq_nil.mp h2.symm).1
          rw [h3, ← h1]
      rw [hl2'] at hl
      have hgl : fenceM.getLast? = some '\n' := by
        rw [hl, List.getLast?_concat]
      have : btick = '\n' := by
        have h0 : fenceM.getLast? = some btick := rfl
        rw [h0] at hgl
        exact Option.some_injective _ hgl
      exact absurd this (by decide)
  · have hl1' : l₁ = ['\n'] := by
      cases u with
      | nil => rw [List.nil_append] at hx; exact hx.symm
      | cons e u' =>
        rw [List.cons_append] at hx
        injection hx with h1 h2
        exact absurd (List.append_eq_nil.mp h2.symm).2 hl1
    rw [hl1', List.singleton_append] at hl
    have hbq : btick = '\n' := by
      have h0 : fenceM = btick :: [btick, btick] := rfl
      rw [h0] at hl
      injection hl with h1 h2
    exact absurd hbq (by decide)

/-- The tagged fence opener does not occur after the opener of a
tag-wrapped fence-free payload. -/
theorem not_occurs_fenceTag_rest (p : PyStr) (h : ¬ Occurs fenceM p) :
    ¬ Occurs fenceTag (('\n' :: (p ++ ['\n'])) ++ fenceM) := by
  intro hocc
  rcases occurs_append_cases _ _ _ hocc with h1 | h1 |
    ⟨l₁, l₂, u, w, hl, hl1, hl2, hx, hy⟩
  · obtain ⟨a, b, hab⟩ := h1
    have : Occurs fenceM ('\n' :: (p ++ ['\n'])) :=
      ⟨a, 'j' :: 's' :: 'o' :: 'n' :: b, by
        rw [hab]
        simp [fenceTag, fenceM, List.append_assoc]⟩
    exact not_occurs_fence_nl_wrap p h this
  · exact absurd (occurs_length_le _ _ h1) (by simp [fenceTag, fenceM])
  · have hgl : fenceTag.getLast? = l₂.getLast? := by
      rw [hl]
      exact List.getLast?_append_of_ne_nil _ hl2
    have hn : fenceTag.getLast? = some 'n' := rfl
    cases hg2 : l₂.getLast? with
    | none =>
      rw [hg2, hn] at hgl
      cases hgl
    | some x =>
      have hx2 : x ∈ l₂ := List.mem_of_mem_getLast? hg2
      have hxf : x ∈ fenceM := by
        rw [hy]
        exact List.mem_append_left w hx2
      have hxb := mem_fenceM_eq_btick x hxf
      rw [hg2, hn] at hgl
      have : 'n' = x := Option.some_injective _ hgl
      rw [hxb] at this
      exact absurd this (by decide)

/-- Stripping ignores a leading non-whitespace character. -/
theorem lstrip_cons_nonws (c : Char) (s : PyStr) (h : pyWs c = false) :
    lstrip (c :: s) = c :: s := by
  simp [lstrip, List.dropWhile_cons, h]

/-- Stripping ignores a trailing non-whitespace character. -/
theorem rstrip_append_nonws (c : Char) (s : PyStr) (h : pyWs c = false) :
    rstrip (s ++ [c]) = s ++ [c] := by
  simp [rstrip, List.reverse_append, List.dropWhile_cons, h]

/-- A string delimited by non-whitespace characters strips to
itself. -/
theorem pyStrip_delimited (c d : Char) (s : PyStr)
    (hc : pyWs c = false) (hd : pyWs d = false) :
    pyStrip (c :: (s ++ [d])) = c :: (s ++ [d]) := by
  unfold pyStrip
  rw [lstrip_cons_nonws c (s ++ [d]) hc]
  have : (c :: (s ++ [d])) = (c :: s) ++ [d] := by simp
  rw [this, rstrip_append_nonws d (c :: s) hd]

/-- Stripping drops a trailing whitespace character. -/
theorem rstrip_append_ws (c : Char) (s : PyStr) (h : pyWs c = true) :
    rstrip (s ++ [c]) = rstrip s := by
  simp [rstrip, List.reverse_append, List.dropWhile_cons, h]

/-- Stripping the newline-wrapped payload strips the payload. -/
theorem pyStrip_nl_wrap (p : PyStr) :
    pyStrip ('\n' :: (p ++ ['\n'])) = pyStrip p := by
  unfold pyStrip
  have h1 : lstrip ('\n' :: (p ++ ['\n'])) = lstrip (p ++ ['\n']) := by
    have hws : pyWs '\n' = true := rfl
    simp [lstrip, List.dropWhile_cons, hws]
  rw [h1]
  unfold lstrip
  rw [List.dropWhile_append]
  split
  · rename_i hdw
    simp only [List.isEmpty_iff] at hdw
    rw [hdw]
    simp [List.dropWhile, pyWs, rstrip]
  · exact rstrip_append_ws '\n' _ rfl

/-- One step of the fuelled splitter. -/
theorem pySplitAux_succ (sep : PyStr) (n : Nat) (s : PyStr) :
    pySplitAux sep (n + 1) s =
      (match splitFirst sep s with
       | none => [s]
       | some (pre, post) => pre :: pySplitAux sep n post) := rfl

/-- A miss of `splitFirst` refutes occurrence. -/
theorem not_occurs_of_splitFirst_none (sep s : PyStr) (hne : sep ≠ [])
    (h : splitFirst sep s = none) : ¬ Occurs sep s := by
  intro hocc
  obtain ⟨a, b, hab⟩ := hocc
  have := splitFirst_isSome_of_occurs sep hne a b s hab
  rw [h] at this
  simp at this

/-- Element 1 of splitting `sep ++ rest` on `sep`, when `sep` does not
occur again in `rest`. -/
theorem pySplit_getD_one (sep rest : PyStr) (hne : sep ≠ [])
    (hno : ¬ Occurs sep rest) :
    (pySplit sep (sep ++ rest)).getD 1 [] = rest := by
  unfold pySplit
  rw [pySplitAux_succ]
  simp only [splitFirst_self_start sep rest hne]
  obtain ⟨m, hm⟩ : ∃ m, (sep ++ rest).length = m + 1 := by
    cases sep with
    | nil => exact absurd rfl hne
    | cons c sep' => exact ⟨(sep' ++ rest).length, by simp⟩
  rw [hm, pySplitAux_succ]
  simp only [splitFirst_none_of_not_occurs sep rest hno]
  rfl

/-- Element 0 of splitting `front ++ fenceM` on the fence. -/
theorem pySplit_fence_getD_zero (front : PyStr) (hno : ¬ Occurs fenceM front)
    (hlast : front.getLast? ≠ some btick) :
    (pySplit fenceM (front ++ fenceM)).getD 0 [] = front := by
  unfold pySplit
  rw [pySplitAux_succ]
  have hsf : splitFirst fenceM (front ++ fenceM) = some (front, []) := by
    have := splitFirst_fence_first [] front hno hlast
    simpa using this
  simp only [hsf]
  rfl

/-- Element 1 of splitting a fully fence-wrapped `front` on the
fence. -/
theorem pySplit_fence_getD_one (front : PyStr) (hno : ¬ Occurs fenceM front)
    (hlast : front.getLast? ≠ some btick) :
    (pySplit fenceM (fenceM ++ (front ++ fenceM))).getD 1 [] = front := by
  unfold pySplit
  rw [pySplitAux_succ]
  simp only [splitFirst_self_start fenceM (front ++ fenceM) (by simp [fenceM])]
  obtain ⟨m, hm⟩ : ∃ m, (fenceM ++ (front ++ fenceM)).length = m + 1 :=
    ⟨(front ++ fenceM).length + 2, by simp [fenceM]⟩
  rw [hm, pySplitAux_succ]
  have hsf : splitFirst fenceM (front ++ fenceM) = some (front, []) := by
    have := splitFirst_fence_first [] front hno hlast
    simpa using this
  simp only [hsf]
  rfl

/-- The newline-wrapped payload never ends in a backtick. -/
theorem nl_wrap_getLast (p : PyStr) :
    ('\n' :: (p ++ ['\n'])).getLast? ≠ some btick := by
  rw [show ('\n' :: (p ++ ['\n'])) = (('\n' :: p) ++ ['\n']) from by simp,
    List.getLast?_concat]
  intro h
  have := Option.some_injective _ h
  exact absurd this (by decide)

/-- Fence stripping of a tag-wrapped fence-free payload extracts the
stripped payload. -/
theorem extractResponseText_wrapTag (p : PyStr) (hno : ¬ Occurs fenceM p) :
    extractResponseText (wrapTag p) = pyStrip p := by
  have hstrip : pyStrip (wrapTag p) = wrapTag p := by
    have hshape : wrapTag p =
        btick :: ((btick :: btick :: 'j' :: 's' :: 'o' :: 'n' :: '\n' ::
          (p ++ ['\n', btick, btick])) ++ [btick]) := by
      simp [wrapTag, fenceTag, fenceM]
    rw [hshape]
    exact pyStrip_delimited btick btick _ rfl rfl
  have hpre : fenceTag.isPrefixOf (wrapTag p) = true :=
    List.isPrefixOf_iff_prefix.mpr ⟨'\n' :: (p ++ '\n' :: fenceM), rfl⟩
  simp only [extractResponseText, hstrip, hpre, if_true]
  have h1 : (pySplit fenceTag (wrapTag p)).getD 1 [] = '\n' :: (p ++ '\n' :: fenceM) := by
    have hno2 : ¬ Occurs fenceTag ('\n' :: (p ++ '\n' :: fenceM)) := by
      rw [show ('\n' :: (p ++ '\n' :: fenceM)) = (('\n' :: (p ++ ['\n'])) ++ fenceM)
        from by simp]
      exact not_occurs_fenceTag_rest p hno
    exact pySplit_getD_one fenceTag ('\n' :: (p ++ '\n' :: fenceM))
      (by simp [fenceTag]) hno2
  rw [h1]
  have h2 : (pySplit fenceM ('\n' :: (p ++ '\n' :: fenceM))).getD 0 [] =
      '\n' :: (p ++ ['\n']) := by
    rw [show ('\n' :: (p ++ '\n' :: fenceM)) = (('\n' :: (p ++ ['\n'])) ++ fenceM)
      from by simp]
    exact pySplit_fence_getD_zero ('\n' :: (p ++ ['\n']))
      (not_occurs_fence_nl_wrap p hno) (nl_wrap_getLast p)
  rw [h2, pyStrip_nl_wrap]

/-- Fence stripping of an untagged-wrapped fence-free payload extracts
the stripped payload. -/
theorem extractResponseText_wrapNoTag (p : PyStr) (hno : ¬ Occurs fenceM p) :
    extractResponseText (wrapNoTag p) = pyStrip p := by
  have hstrip : pyStrip (wrapNoTag p) = wrapNoTag p := by
    have hshape : wrapNoTag p =
        btick :: ((btick :: btick :: '\n' ::
          (p ++ ['\n', btick, btick])) ++ [btick]) := by
      simp [wrapNoTag, fenceM]
    rw [hshape]
    exact pyStrip_delimited btick btick _ rfl rfl
  have hnpre : fenceTag.isPrefixOf (wrapNoTag p) = false := rfl
  have hpre : fenceM.isPrefixOf (wrapNoTag p) = true :=
    List.isPrefixOf_iff_prefix.mpr ⟨'\n' :: (p ++ '\n' :: fenceM), rfl⟩
  simp only [extractResponseText, hstrip, hnpre, hpre, Bool.false_eq_true,
    if_false, if_true]
  have h1 : (pySplit fenceM (wrapNoTag p)).getD 1 [] = '\n' :: (p ++ ['\n']) := by
    rw [show wrapNoTag p = (fenceM ++ (('\n' :: (p ++ ['\n'])) ++ fenceM))
      from by simp [wrapNoTag]]
    exact pySplit_fence_getD_one ('\n' :: (p ++ ['\n']))
      (not_occurs_fence_nl_wrap p hno) (nl_wrap_getLast p)
  rw [h1]
  have h2 : (pySplit fenceM ('\n' :: (p ++ ['\n']))).getD 0 [] =
      '\n' :: (p ++ ['\n']) := by
    unfold pySplit
    rw [pySplitAux_succ]
    simp only [splitFirst_none_of_not_occurs fenceM ('\n' :: (p ++ ['\n']))
      (not_occurs_fence_nl_wrap p hno)]
    rfl
  rw [h2, pyStrip_nl_wrap]

/-- Fence stripping of a bare array payload is just stripping. -/
theorem extractResponseText_bare (p : PyStr) (hb : (pyStrip p).take 1 = ['[']) :
    extractResponseText p = pyStrip p := by
  obtain ⟨t, ht⟩ : ∃ t, pyStrip p = '[' :: t := by
    cases hp : pyStrip p with
    | nil => rw [hp] at hb; cases hb
    | cons a t =>
      rw [hp] at hb
      simp only [List.take] at hb
      injection hb with h1 _
      exact ⟨t, by rw [h1]⟩
  have h1 : fenceTag.isPrefixOf ('[' :: t) = false := rfl
  have h2 : fenceM.isPrefixOf ('[' :: t) = false := rfl
  simp only [extractResponseText, ht, h1, h2, Bool.false_eq_true, if_false]

/-- C6 (amended): for a JSON array payload that does not contain the
fence marker (three backticks) as a substring, the response parser
produces the same structured value for the payload wrapped in a fenced
block with a language tag, wrapped without a tag, and bare: in each
fenced case the content between the first pair of fences is extracted
and trimmed, which recovers the trimmed payload. The restriction is
needed: the claim as stated over every JSON array payload is false,
because a payload containing the fence marker is cut at that marker
(see the counterexample). -/
theorem C6_fence_roundtrip (p : PyStr) (hno : ¬ Occurs fenceM p)
    (hb : (pyStrip p).take 1 = ['[']) :
    extractResponseText (wrapTag p) = pyStrip p ∧
    extractResponseText (wrapNoTag p) = pyStrip p ∧
    extractResponseText p = pyStrip p ∧
    parseResponse (wrapTag p) = parseResponse p ∧
    parseResponse (wrapNoTag p) = parseResponse p := by
  have h1 := extractResponseText_wrapTag p hno
  have h2 := extractResponseText_wrapNoTag p hno
  have h3 := extractResponseText_bare p hb
  refine ⟨h1, h2, h3, ?_, ?_⟩
  · unfold parseResponse; rw [h1, h3]
  · unfold parseResponse; rw [h2, h3]

/-- C6 counterexample: the JSON array payload whose single element is
the string of three backticks parses bare, but wrapped in a tagged
fenced block the extraction cuts the content at the embedded marker and
the parse fails, so the two raw texts do not produce identical
structured values. -/
theorem C6_counterexample_fence_in_payload :
    parseResponse cexPayload = some (JVal.jarr [JVal.jstr fenceM]) ∧
    parseResponse (wrapTag cexPayload) = none ∧
    parseResponse (wrapTag cexPayload) ≠ parseResponse cexPayload :=
  ⟨rfl, rfl, by decide⟩

/-- Witness for C6 at the concrete payload `[1]`. -/
theorem C6_fence_roundtrip_witness :
    parseResponse (wrapTag ['[', '1', ']']) = parseResponse ['[', '1', ']'] ∧
    parseResponse (wrapNoTag ['[', '1', ']']) = parseResponse ['[', '1', ']'] := by
  have h := C6_fence_roundtrip ['[', '1', ']']
    (not_occurs_of_splitFirst_none fenceM ['[', '1', ']'] (by decide) (by decide))
    (by decide)
  exact ⟨h.2.2.2.1, h.2.2.2.2⟩
